import Mathlib

/-!
Verification development for the NSO-to-OpenConfig translation package
(`package_nso_to_oc/xe/xe_acls.py` and `package_nso_to_oc/xe/xe_ospfv2.py`).

The Python source is shallowly embedded: dictionaries become structures with
optional fields (`none` models an absent key), in-place mutation becomes
explicit state passing, exceptions become `Except`, and the handful of string
primitives the source relies on (`str.split`, `int`, `str.isdigit`,
`format(n, "08b")`, `ipaddress.IPv4Network`) are modelled by executable Lean
functions over `List Char` so that every definition evaluates by `decide`/`rfl`.
-/

deriving instance DecidableEq for Except

namespace NsoOc

/-! ## Python string primitives -/

/-- Build a `String` from a list of characters. -/
def mkStr (cs : List Char) : String := String.mk cs

/-- Split a character list at every occurrence of the separator character.
Models Python `str.split(sep)` for a one-character separator: splitting the
empty string yields `[""]`, and consecutive separators yield empty fields. -/
def splitOnChar (sep : Char) : List Char → List (List Char)
  | [] => [[]]
  | c :: cs =>
    let rest := splitOnChar sep cs
    if c = sep then [] :: rest
    else match rest with
      | [] => [[c]]
      | r :: rs => (c :: r) :: rs

/-- Python `s.split(".")`. -/
def pySplitDot (s : String) : List String :=
  (splitOnChar '.' s.data).map mkStr

/-- Split a character list on whitespace runs, dropping empty fields.
Models Python `str.split()` with no argument. -/
def pySplitWs (s : String) : List String :=
  ((s.data.splitBy (fun a b => a.isWhitespace = b.isWhitespace)).filter
    (fun run => !(run.getD 0 ' ').isWhitespace)).map mkStr

/-- Parse a nonempty all-digit character list as a natural number. -/
def parseNatDigits : List Char → Option Nat
  | [] => none
  | cs =>
    if cs.all Char.isDigit then
      some (cs.foldl (fun acc c => acc * 10 + (c.toNat - '0'.toNat)) 0)
    else none

/-- Python `int(s)` on a token produced by `split` (optional leading minus
sign, then decimal digits); `none` models the `ValueError` raised otherwise. -/
def pyInt (s : String) : Option Int :=
  match s.data with
  | '-' :: rest => (parseNatDigits rest).map (fun n => -(n : Int))
  | cs => (parseNatDigits cs).map (fun n => (n : Int))

/-- Python `str.isdigit()` restricted to ASCII. -/
def pyIsdigit (s : String) : Bool :=
  !s.data.isEmpty && s.data.all Char.isDigit

/-- Python truthiness of an optional string (`None` and `""` are falsy). -/
def pyFalsyStr : Option String → Bool
  | none => true
  | some s => s.data.isEmpty

/-! ## The `ipaddress.IPv4Network((0, mask))` prefix-length computation

`BaseAcl.__set_ip_and_network` builds `IPv4Network((0, hostmask))` and reads
`prefixlen`.  CPython's `_make_netmask` first tries the argument as a decimal
prefix length, then as a dotted quad interpreted as a *netmask* (contiguous
leading ones) and only if that fails as a *hostmask* (complement of a
netmask); anything else raises. -/

/-- Parse one dotted-quad octet the way `ipaddress._parse_octet` does:
only digits, at most three characters, no leading zero, value at most 255. -/
def octetVal (s : String) : Option Nat :=
  match parseNatDigits s.data with
  | none => none
  | some v =>
    if s.data.length ≤ 3 ∧ (s.data.length = 1 ∨ s.data.getD 0 ' ' ≠ '0') ∧ v ≤ 255 then
      some v
    else none

/-- Parse a dotted quad into its 32-bit value. -/
def quadVal (s : String) : Option Nat :=
  match pySplitDot s with
  | [a, b, c, d] => do
    let va ← octetVal a
    let vb ← octetVal b
    let vc ← octetVal c
    let vd ← octetVal d
    pure (va * 16777216 + vb * 65536 + vc * 256 + vd)
  | _ => none

/-- Prefix length of a 32-bit value consisting of `p` leading ones followed
by zeros, if it has that shape. -/
def netmaskLen (v : Nat) : Option Nat :=
  (List.range 33).find? (fun p => v = 4294967296 - 2 ^ (32 - p))

/-- Prefix length produced by `IPv4Network((0, s)).prefixlen`, `none` when the
constructor raises: decimal prefix string first, then netmask, then hostmask. -/
def maskToPrefixLen (s : String) : Option Nat :=
  if pyIsdigit s then
    match parseNatDigits s.data with
    | some n => if n ≤ 32 then some n else none
    | none => none
  else
    match quadVal s with
    | none => none
    | some v =>
      match netmaskLen v with
      | some p => some p
      | none => netmaskLen (4294967295 - v)

/-! ## ACL data model (`xe_acls.py`) -/

/-- A translation note appended by `BaseAcl.__add_acl_entry_note`. -/
structure Note where
  aclName : Option String
  originalEntry : String
  text : String
  deriving DecidableEq, Repr

/-- An OpenConfig port value: `eq` produces an integer, everything else a
string such as `"ANY"`, `"20..21"`, `"0..1023"`. -/
inductive PortVal where
  | num (n : Int)
  | str (s : String)
  deriving DecidableEq, Repr

/-- The fields of one `openconfig-acl:acl-entry` that the translator writes.
Nested container paths of the JSON output are flattened to named fields. -/
structure AclEntry where
  seqId : Int
  fwdAction : String
  protocol : Option String := none
  srcAddr : Option String := none
  dstAddr : Option String := none
  srcPort : Option PortVal := none
  dstPort : Option PortVal := none
  tcpFlags : Option (List String) := none
  logAction : Option String := none
  deriving DecidableEq, Repr

/-- `ACL_IPV4_STANDARD` vs `ACL_IPV4`. -/
inductive AclType where
  | std
  | ext
  deriving DecidableEq, Repr

/-- The module-level `protocols_oc_to_xe` dictionary. -/
def protocols_oc_to_xe : List (String × String) :=
  [("icmp", "IP_ICMP"), ("igmp", "IP_IGMP"), ("ipnip", "IP_IN_IP"),
   ("tcp", "IP_TCP"), ("udp", "IP_UDP"), ("gre", "IP_GRE"),
   ("ahp", "IP_AUTH"), ("pim", "IP_PIM")]

/-- The module-level `actions_xe_to_oc` dictionary. -/
def actions_xe_to_oc : List (String × String) :=
  [("permit", "ACCEPT"), ("deny", "REJECT")]

/-- The module-level `port_operators` list. -/
def port_operators : List String := ["range", "eq", "lt", "gt", "neq"]

/-- Build the note record of `BaseAcl.__add_acl_entry_note`. -/
def mkNote (aclName : Option String) (parts : List String) (text : String) : Note :=
  { aclName := aclName, originalEntry := String.intercalate " " parts, text := text }

/-- Errors escaping the `try` block of `__set_rule_parts`: the optional note
that was appended just before the exception was raised (exceptions such as
`IndexError` or an `IPv4Network` failure carry no note). -/
abbrev PErr := Except (Option Note)

/-- List indexing, raising a note-less `IndexError` out of bounds. -/
def idxP (parts : List String) (i : Nat) : PErr String :=
  match parts.get? i with
  | some t => .ok t
  | none => .error none

/-- `BaseAcl.__set_protocol`: standard ACLs skip to index 2; extended ACLs
decode `rule_parts[2]`, noting and raising on an unknown protocol. -/
def set_protocol (ty : AclType) (aclName : Option String) (parts : List String)
    (e : AclEntry) : PErr (AclEntry × Nat) :=
  if ty = .std then .ok (e, 2)
  else do
    let p ← idxP parts 2
    if p = "ip" then .ok (e, 3)
    else
      match protocols_oc_to_xe.lookup p with
      | none =>
        .error (some (mkNote aclName parts
          ("protocol " ++ p ++ " does not exist in expected list of protocols")))
      | some oc => .ok ({ e with protocol := some oc }, 3)

/-- Write the source or destination address field. -/
def setAddr (e : AclEntry) (isSource : Bool) (v : String) : AclEntry :=
  if isSource then { e with srcAddr := some v } else { e with dstAddr := some v }

/-- Write the source or destination transport port field. -/
def setPort (e : AclEntry) (isSource : Bool) (v : PortVal) : AclEntry :=
  if isSource then { e with srcPort := some v } else { e with dstPort := some v }

/-- `BaseAcl.__set_ip_and_network`: `any`, `host <ip>`, or `<ip> <mask>` with
the prefix length computed through `IPv4Network((0, mask))`. -/
def set_ip_and_network (parts : List String) (i : Nat) (e : AclEntry)
    (isSource : Bool) : PErr (AclEntry × Nat) := do
  let ip ← idxP parts i
  if ip = "any" then
    .ok (setAddr e isSource "0.0.0.0/0", i + 1)
  else if ip = "host" then do
    let h ← idxP parts (i + 1)
    .ok (setAddr e isSource (h ++ "/32"), i + 2)
  else do
    let hostmask ← idxP parts (i + 1)
    match maskToPrefixLen hostmask with
    | none => .error none
    | some p => .ok (setAddr e isSource (ip ++ "/" ++ toString p), i + 2)

/-- `BaseAcl.__set_tcp_flags`: recognised only at the current cursor position. -/
def set_tcp_flags (parts : List String) (i : Nat) (e : AclEntry) : AclEntry × Nat :=
  if parts.length ≤ i ∨ ¬ (["ack", "rst", "established"].contains (parts.getD i "")) then
    (e, i)
  else
    let t := parts.getD i ""
    let e := if t = "ack" then { e with tcpFlags := some ["TCP_ACK"] } else e
    let e := if t = "rst" then { e with tcpFlags := some ["TCP_RST"] } else e
    let e := if t = "established" then { e with tcpFlags := some ["TCP_ACK", "TCP_RST"] } else e
    (e, i + 1)

/-- The resolved port token: a digit token is kept as a string, a service
name is resolved to an integer through `socket.getservbyname`. -/
inductive PyPort where
  | pint (n : Int)
  | pstr (s : String)
  deriving DecidableEq, Repr

/-- Python `int(current_port)` applied to the resolved token. -/
def pyPortInt : PyPort → Int
  | .pint n => n
  | .pstr s => (pyInt s).getD 0

/-- Python f-string rendering of the resolved token. -/
def pyPortRender : PyPort → String
  | .pint n => toString n
  | .pstr s => s

/-- `BaseAcl.__set_port`.  `svc` models `socket.getservbyname`.  The source
returns the *unchanged* index after a source-side `range` and adds 2 after the
flag scan on the destination side for `lt`/`gt`/`eq`; both quirks are kept. -/
def set_port (svc : String → Option Nat) (aclName : Option String)
    (parts : List String) (i : Nat) (e : AclEntry) (isSource : Bool) :
    PErr (AclEntry × Nat) :=
  if parts.length ≤ i ∨ ¬ (port_operators.contains (parts.getD i "")) then
    if isSource then .ok (setPort e isSource (.str "ANY"), i)
    else
      let e := setPort e isSource (.str "ANY")
      let (e, i2) := set_tcp_flags parts i e
      .ok (e, i2)
  else do
    let tok ← idxP parts (i + 1)
    let cp : PyPort ←
      if pyIsdigit tok then .ok (.pstr tok)
      else
        match svc tok with
        | some n => .ok (.pint (n : Int))
        | none =>
          .error (some (mkNote aclName parts
            ("Unable to convert service " ++ tok ++ " to a port number")))
    let op := parts.getD i ""
    if op = "range" then do
      let endPort ← idxP parts (i + 2)
      if isSource then
        .ok (setPort e isSource (.str (pyPortRender cp ++ ".." ++ endPort)), i)
      else
        let e := setPort e isSource (.str (pyPortRender cp ++ ".." ++ endPort))
        let (e, i3) := set_tcp_flags parts (i + 3) e
        .ok (e, i3)
    else if op = "lt" then
      let e := setPort e isSource (.str ("0.." ++ toString (pyPortInt cp - 1)))
      if isSource then .ok (e, i + 2)
      else
        let (e, i4) := set_tcp_flags parts (i + 2) e
        .ok (e, i4 + 2)
    else if op = "gt" then
      let e := setPort e isSource (.str (toString (pyPortInt cp + 1) ++ "..65535"))
      if isSource then .ok (e, i + 2)
      else
        let (e, i4) := set_tcp_flags parts (i + 2) e
        .ok (e, i4 + 2)
    else if op = "eq" then
      let e := setPort e isSource (.num (pyPortInt cp))
      if isSource then .ok (e, i + 2)
      else
        let (e, i4) := set_tcp_flags parts (i + 2) e
        .ok (e, i4 + 2)
    else
      .error (some (mkNote aclName parts
        "XE ACL use of the neq port operator does not have an OC equivalent."))

/-- `BaseAcl.__set_ip_and_port`. -/
def set_ip_and_port (svc : String → Option Nat) (aclName : Option String)
    (parts : List String) (i : Nat) (e : AclEntry) (isSource : Bool) :
    PErr (AclEntry × Nat) :=
  if parts.length ≤ i then .ok (e, i)
  else do
    let (e, i2) ← set_ip_and_network parts i e isSource
    if parts.getD 2 "" = "tcp" ∨ parts.getD 2 "" = "udp" then
      set_port svc aclName parts i2 e isSource
    else .ok (e, i2)

/-- The `try` block of `__set_rule_parts`.  On failure the payload records the
optional note and the last value bound to `current_index` (`none` when
`__set_protocol` itself raised, leaving `current_index` unbound). -/
def tryParse (ty : AclType) (svc : String → Option Nat) (aclName : Option String)
    (parts : List String) (e0 : AclEntry) :
    Except (Option Note × Option Nat) (AclEntry × Nat) :=
  match set_protocol ty aclName parts e0 with
  | .error n => .error (n, none)
  | .ok (e, i) =>
    match set_ip_and_port svc aclName parts i e true with
    | .error n => .error (n, some i)
    | .ok (e, i2) =>
      if ty = .ext then
        match set_ip_and_port svc aclName parts i2 e false with
        | .error n => .error (n, some i2)
        | .ok r => .ok r
      else .ok (e, i2)

/-- `BaseAcl.__set_rule_parts`.  Returns `(rule_success, entry, notes)`; an
outer `.error` models an exception escaping the method (a non-integer
sequence token, a missing or unknown action token, or the
`UnboundLocalError` on `current_index` when `__set_protocol` raised inside
the `try` block). -/
def set_rule_parts (ty : AclType) (svc : String → Option Nat)
    (aclName : Option String) (ruleStr : String) :
    Except String (Bool × Option AclEntry × List Note) :=
  let parts := pySplitWs ruleStr
  if parts.length < 1 then .ok (false, none, [])
  else
    match pyInt (parts.getD 0 "") with
    | none => .error "ValueError: invalid literal for int"
    | some seqId =>
      match parts.get? 1 with
      | none => .error "IndexError: list index out of range"
      | some act =>
        match actions_xe_to_oc.lookup act with
        | none => .error "KeyError: unknown action"
        | some fwd =>
          let e0 : AclEntry := { seqId := seqId, fwdAction := fwd }
          match tryParse ty svc aclName parts e0 with
          | .ok (e, i) =>
            let e :=
              if parts.length > i ∧ parts.getD i "" = "log-input" then
                { e with logAction := some "LOG_SYSLOG" }
              else { e with logAction := some "LOG_NONE" }
            .ok (true, some e, [])
          | .error (note?, idx?) =>
            match idx? with
            | none => .error "UnboundLocalError: local variable current_index referenced before assignment"
            | some _ => .ok (false, none, note?.toList)

/-- One XE ACL as read from the NED tree: its `name` field and the `rule`
string of each entry of its rule list (`none` models an absent `rule` key). -/
structure XeAcl where
  name : Option String := none
  rules : List (Option String) := []
  deriving DecidableEq, Repr

/-- The parallel leftover entry: the `name` field and the rule list, whose
elements are nulled (`none`) as rules are consumed. -/
structure XeAclAfter where
  name : Option String := none
  rules : List (Option (Option String)) := []
  deriving DecidableEq, Repr

/-- The rule loop of `BaseAcl.process_acl`, carried out over the rule list
with its running index: accumulates emitted entries and notes, nulls the
leftover slot of each successful rule, and reports whether every rule
succeeded. -/
def processRulesAux (ty : AclType) (svc : String → Option Nat)
    (aclName : Option String) :
    List (Option String) → Nat → XeAclAfter →
    Except String (List AclEntry × XeAclAfter × List Note × Bool)
  | [], _, after => .ok ([], after, [], true)
  | r :: rest, i, after => do
    let (ruleSuccess, entry?, ns) ← set_rule_parts ty svc aclName (r.getD "")
    if ruleSuccess then
      if i < after.rules.length then do
        let (es, a, ms, ok) ←
          processRulesAux ty svc aclName rest (i + 1)
            { after with rules := after.rules.set i none }
        .ok (entry?.toList ++ es, a, ns ++ ms, ok)
      else .error "IndexError: leftover rule list too short"
    else do
      let (es, a, ms, _) ← processRulesAux ty svc aclName rest (i + 1) after
      .ok (entry?.toList ++ es, a, ns ++ ms, false)

/-- `BaseAcl.process_acl`: run every rule, then delete the leftover `name`
field only when every rule translated successfully. -/
def process_acl (ty : AclType) (svc : String → Option Nat) (xe : XeAcl)
    (after : XeAclAfter) :
    Except String (List AclEntry × XeAclAfter × List Note) := do
  let (es, a, ns, aclSuccess) ← processRulesAux ty svc xe.name xe.rules 0 after
  if aclSuccess then
    match a.name with
    | some _ => .ok (es, { a with name := none }, ns)
    | none => .error "KeyError: name"
  else .ok (es, a, ns)

end NsoOc

namespace NsoOc

/-! ## Helper lemmas for the ACL parser -/

theorem getD_of_get? {parts : List String} {i : Nat} {t : String}
    (h : parts.get? i = some t) : parts.getD i "" = t := by
  rw [List.get?_eq_getElem?] at h
  simp [List.getD, h]

theorem lt_length_of_get? {parts : List String} {i : Nat} {t : String}
    (h : parts.get? i = some t) : i < parts.length :=
  List.get?_eq_some.mp h |>.1

theorem idxP_ok {parts : List String} {i : Nat} {t : String}
    (h : parts.get? i = some t) : idxP parts i = .ok t := by
  rw [idxP, h]

/-! ## Claim C7: ACL address specifications -/

/-- C7 (amended): `any` maps to `0.0.0.0/0` and `host <ip>` to `<ip>/32` in
both positions; an `<ip> <wildcard>` pair maps to `<ip>/<p>` where `p` is the
prefix length `IPv4Network((0, wildcard))` computes — the dotted mask is
interpreted first as a netmask (contiguous leading ones) and only on failure
as a hostmask, so `0.0.0.255` gives /24 but `0.0.0.0` gives /0 (not /32) and
`255.255.255.0` gives /24 rather than failing. -/
theorem c7_address_spec (parts : List String) (i : Nat) (e : AclEntry) (isSource : Bool) :
    (parts.get? i = some "any" →
      set_ip_and_network parts i e isSource = .ok (setAddr e isSource "0.0.0.0/0", i + 1)) ∧
    (∀ h, parts.get? i = some "host" → parts.get? (i + 1) = some h →
      set_ip_and_network parts i e isSource = .ok (setAddr e isSource (h ++ "/32"), i + 2)) ∧
    (∀ ip m p, parts.get? i = some ip → ip ≠ "any" → ip ≠ "host" →
      parts.get? (i + 1) = some m → maskToPrefixLen m = some p →
      set_ip_and_network parts i e isSource =
        .ok (setAddr e isSource (ip ++ "/" ++ toString p), i + 2)) ∧
    maskToPrefixLen "0.0.0.255" = some 24 ∧
    maskToPrefixLen "255.255.255.0" = some 24 ∧
    maskToPrefixLen "0.0.0.0" = some 0 := by
  refine ⟨?_, ?_, ?_, by decide, by decide, by decide⟩
  · intro h
    simp [set_ip_and_network, idxP_ok h, bind, Except.bind]
  · intro h hi hh
    simp [set_ip_and_network, idxP_ok hi, idxP_ok hh, bind, Except.bind]
  · intro ip m p hip hany hhost hm hp
    simp [set_ip_and_network, idxP_ok hip, idxP_ok hm, hany, hhost, hp, bind, Except.bind]

/-- C7 counterexample: the wildcard `0.0.0.0` names the single host, so the
hostmask reading demanded by the claim would give `10.0.0.1/32`, but
`IPv4Network((0, "0.0.0.0"))` parses it as a netmask and the code emits
`10.0.0.1/0`. -/
theorem c7_counterexample :
    set_ip_and_network ["10", "permit", "10.0.0.1", "0.0.0.0"] 2
        { seqId := 10, fwdAction := "ACCEPT" } true =
      .ok ({ seqId := 10, fwdAction := "ACCEPT", srcAddr := some "10.0.0.1/0" }, 4) ∧
    ({ seqId := 10, fwdAction := "ACCEPT", srcAddr := some "10.0.0.1/0" } : AclEntry) ≠
      { seqId := 10, fwdAction := "ACCEPT", srcAddr := some "10.0.0.1/32" } := by
  decide

/-- C7 witness: concrete instances of each branch of `c7_address_spec`. -/
theorem c7_witness :
    set_ip_and_network ["10", "permit", "10.0.0.0", "0.0.0.255"] 2
        { seqId := 10, fwdAction := "ACCEPT" } true =
      .ok (setAddr { seqId := 10, fwdAction := "ACCEPT" } true ("10.0.0.0" ++ "/" ++ toString 24), 4) ∧
    set_ip_and_network ["10", "permit", "any"] 2
        { seqId := 10, fwdAction := "ACCEPT" } true =
      .ok (setAddr { seqId := 10, fwdAction := "ACCEPT" } true "0.0.0.0/0", 3) ∧
    set_ip_and_network ["10", "deny", "host", "10.0.0.1"] 2
        { seqId := 10, fwdAction := "REJECT" } false =
      .ok (setAddr { seqId := 10, fwdAction := "REJECT" } false ("10.0.0.1" ++ "/32"), 4) := by
  refine ⟨?_, ?_, ?_⟩
  · exact (c7_address_spec _ 2 _ true).2.2.1 "10.0.0.0" "0.0.0.255" 24 rfl
      (by decide) (by decide) rfl (by decide)
  · exact (c7_address_spec _ 2 _ true).1 rfl
  · exact (c7_address_spec _ 2 _ false).2.1 "10.0.0.1" rfl rfl


/-! ## Claim C8: ACL port specifications -/

theorem getElem?_of_get? {parts : List String} {i : Nat} {t : String}
    (h : parts.get? i = some t) : parts[i]? = some t := by
  rw [← List.get?_eq_getElem?]; exact h

theorem set_port_guard {parts : List String} {i : Nat} {op : String}
    (h : parts.get? i = some op) (hop : port_operators.contains op = true) :
    ¬ (parts.length ≤ i ∨ ¬ (port_operators.contains (parts.getD i ""))) := by
  rw [getD_of_get? h]
  rintro (hc | hc)
  · exact absurd hc (Nat.not_le.mpr (lt_length_of_get? h))
  · exact hc hop

theorem set_tcp_flags_ports (parts : List String) (i : Nat) (e : AclEntry) :
    (set_tcp_flags parts i e).1.dstPort = e.dstPort ∧
    (set_tcp_flags parts i e).1.srcPort = e.srcPort := by
  rw [set_tcp_flags]
  split
  · exact ⟨rfl, rfl⟩
  · dsimp only
    split_ifs <;> exact ⟨rfl, rfl⟩

theorem c8_port_spec (svc : String → Option Nat) (nm : Option String)
    (parts : List String) (i : Nat) (e : AclEntry) :
    -- no operator at the cursor: port ANY (destination side then scans flags)
    ((parts.length ≤ i ∨ ¬ (port_operators.contains (parts.getD i ""))) →
      set_port svc nm parts i e true = .ok ({ e with srcPort := some (.str "ANY") }, i)) ∧
    ((parts.length ≤ i ∨ ¬ (port_operators.contains (parts.getD i ""))) →
      set_port svc nm parts i e false =
        .ok (set_tcp_flags parts i (setPort e false (.str "ANY")))) ∧
    -- eq with a numeric token
    (∀ p n, parts.get? i = some "eq" → parts.get? (i + 1) = some p →
      pyIsdigit p = true → pyInt p = some n →
      set_port svc nm parts i e true = .ok ({ e with srcPort := some (.num n) }, i + 2)) ∧
    (∀ p n, parts.get? i = some "eq" → parts.get? (i + 1) = some p →
      pyIsdigit p = true → pyInt p = some n →
      set_port svc nm parts i e false =
        .ok ((set_tcp_flags parts (i + 2) (setPort e false (.num n))).1,
             (set_tcp_flags parts (i + 2) (setPort e false (.num n))).2 + 2)) ∧
    -- eq with a service name resolved through getservbyname
    (∀ p n, parts.get? i = some "eq" → parts.get? (i + 1) = some p →
      pyIsdigit p = false → svc p = some n →
      set_port svc nm parts i e true = .ok ({ e with srcPort := some (.num (n : Int)) }, i + 2)) ∧
    -- range with a numeric start token
    (∀ a b, parts.get? i = some "range" → parts.get? (i + 1) = some a →
      pyIsdigit a = true → parts.get? (i + 2) = some b →
      set_port svc nm parts i e true =
        .ok ({ e with srcPort := some (.str (a ++ ".." ++ b)) }, i)) ∧
    (∀ a b, parts.get? i = some "range" → parts.get? (i + 1) = some a →
      pyIsdigit a = true → parts.get? (i + 2) = some b →
      set_port svc nm parts i e false =
        .ok (set_tcp_flags parts (i + 3) (setPort e false (.str (a ++ ".." ++ b))))) ∧
    -- lt and gt
    (∀ p n, parts.get? i = some "lt" → parts.get? (i + 1) = some p →
      pyIsdigit p = true → pyInt p = some n →
      set_port svc nm parts i e true =
        .ok ({ e with srcPort := some (.str ("0.." ++ toString (n - 1))) }, i + 2)) ∧
    (∀ p n, parts.get? i = some "gt" → parts.get? (i + 1) = some p →
      pyIsdigit p = true → pyInt p = some n →
      set_port svc nm parts i e true =
        .ok ({ e with srcPort := some (.str (toString (n + 1) ++ "..65535")) }, i + 2)) ∧
    -- neq: rejected with a note
    (∀ p isSource, parts.get? i = some "neq" → parts.get? (i + 1) = some p →
      pyIsdigit p = true →
      set_port svc nm parts i e isSource =
        .error (some (mkNote nm parts
          "XE ACL use of the neq port operator does not have an OC equivalent."))) ∧
    -- the destination-side flag scan never alters the port fields
    (∀ parts2 i2 e2, (set_tcp_flags parts2 i2 e2).1.dstPort = e2.dstPort ∧
      (set_tcp_flags parts2 i2 e2).1.srcPort = e2.srcPort) ∧
    (∀ v, (setPort e false v).dstPort = some v ∧ (setPort e true v).srcPort = some v) := by
  refine ⟨?_, ?_, ?_, ?_, ?_, ?_, ?_, ?_, ?_, ?_, set_tcp_flags_ports, fun v => ⟨rfl, rfl⟩⟩
  · intro hg
    rw [set_port, if_pos hg]
    simp [setPort]
  · intro hg
    rw [set_port, if_pos hg]
    rfl
  · intro p n h hp hd hn
    rw [set_port, if_neg (set_port_guard h (by decide))]
    simp [idxP_ok hp, hd, getElem?_of_get? h, bind, Except.bind, setPort, pyPortInt, hn]
  · intro p n h hp hd hn
    rw [set_port, if_neg (set_port_guard h (by decide))]
    simp [idxP_ok hp, hd, getElem?_of_get? h, bind, Except.bind, setPort, pyPortInt, hn]
  · intro p n h hp hd hn
    rw [set_port, if_neg (set_port_guard h (by decide))]
    simp [idxP_ok hp, hd, hn, getElem?_of_get? h, bind, Except.bind, setPort, pyPortInt]
  · intro a b h hp hd hb
    rw [set_port, if_neg (set_port_guard h (by decide))]
    simp [idxP_ok hp, idxP_ok hb, hd, getElem?_of_get? h, bind, Except.bind, setPort,
      pyPortRender]
  · intro a b h hp hd hb
    rw [set_port, if_neg (set_port_guard h (by decide))]
    simp [idxP_ok hp, idxP_ok hb, hd, getElem?_of_get? h, bind, Except.bind, setPort,
      pyPortRender]
  · intro p n h hp hd hn
    rw [set_port, if_neg (set_port_guard h (by decide))]
    simp [idxP_ok hp, hd, hn, getElem?_of_get? h, bind, Except.bind, setPort, pyPortInt]
  · intro p n h hp hd hn
    rw [set_port, if_neg (set_port_guard h (by decide))]
    simp [idxP_ok hp, hd, hn, getElem?_of_get? h, bind, Except.bind, setPort, pyPortInt]
  · intro p isSource h hp hd
    rw [set_port, if_neg (set_port_guard h (by decide))]
    simp [idxP_ok hp, hd, getElem?_of_get? h, bind, Except.bind]



/-- C8 witness: the spec examples `eq 80`, `eq http`, `range 20 21`,
`lt 1024`, `gt 1023`, `neq 80`, and the no-operator case, applied through
`c8_port_spec` at concrete inputs. -/
theorem c8_witness :
    set_port (fun s => if s = "http" then some 80 else none) (some "T")
        ["eq", "80"] 0 { seqId := 10, fwdAction := "ACCEPT" } true =
      .ok ({ seqId := 10, fwdAction := "ACCEPT", srcPort := some (.num 80) }, 2) ∧
    set_port (fun s => if s = "http" then some 80 else none) (some "T")
        ["eq", "http"] 0 { seqId := 10, fwdAction := "ACCEPT" } true =
      .ok ({ seqId := 10, fwdAction := "ACCEPT", srcPort := some (.num 80) }, 2) ∧
    set_port (fun s => if s = "http" then some 80 else none) (some "T")
        ["range", "20", "21"] 0 { seqId := 10, fwdAction := "ACCEPT" } true =
      .ok ({ seqId := 10, fwdAction := "ACCEPT", srcPort := some (.str "20..21") }, 0) ∧
    set_port (fun s => if s = "http" then some 80 else none) (some "T")
        ["lt", "1024"] 0 { seqId := 10, fwdAction := "ACCEPT" } true =
      .ok ({ seqId := 10, fwdAction := "ACCEPT", srcPort := some (.str "0..1023") }, 2) ∧
    set_port (fun s => if s = "http" then some 80 else none) (some "T")
        ["gt", "1023"] 0 { seqId := 10, fwdAction := "ACCEPT" } true =
      .ok ({ seqId := 10, fwdAction := "ACCEPT", srcPort := some (.str "1024..65535") }, 2) ∧
    set_port (fun s => if s = "http" then some 80 else none) (some "T")
        ["neq", "80"] 0 { seqId := 10, fwdAction := "ACCEPT" } true =
      .error (some (mkNote (some "T") ["neq", "80"]
        "XE ACL use of the neq port operator does not have an OC equivalent.")) ∧
    set_port (fun s => if s = "http" then some 80 else none) (some "T")
        ["permit"] 5 { seqId := 10, fwdAction := "ACCEPT" } true =
      .ok ({ seqId := 10, fwdAction := "ACCEPT", srcPort := some (.str "ANY") }, 5) ∧
    set_port (fun s => if s = "http" then some 80 else none) (some "T")
        ["permit"] 5 { seqId := 10, fwdAction := "ACCEPT" } false =
      .ok (set_tcp_flags ["permit"] 5
        (setPort { seqId := 10, fwdAction := "ACCEPT" } false (.str "ANY"))) := by
  refine ⟨?_, ?_, ?_, ?_, ?_, ?_, ?_, ?_⟩
  · exact (c8_port_spec _ _ _ 0 _).2.2.1 "80" 80 rfl rfl (by decide) (by decide)
  · exact ((c8_port_spec (fun s => if s = "http" then some 80 else none) (some "T")
      ["eq", "http"] 0 { seqId := 10, fwdAction := "ACCEPT" }).2.2.2.2.1 "http" 80 rfl rfl
      (by decide) (by decide)).trans (by decide)
  · exact (c8_port_spec _ _ _ 0 _).2.2.2.2.2.1 "20" "21" rfl rfl (by decide) rfl
  · exact ((c8_port_spec (fun s => if s = "http" then some 80 else none) (some "T")
      ["lt", "1024"] 0 { seqId := 10, fwdAction := "ACCEPT" }).2.2.2.2.2.2.2.1 "1024" 1024 rfl rfl
      (by decide) (by decide)).trans (by decide)
  · exact ((c8_port_spec (fun s => if s = "http" then some 80 else none) (some "T")
      ["gt", "1023"] 0 { seqId := 10, fwdAction := "ACCEPT" }).2.2.2.2.2.2.2.2.1 "1023" 1023 rfl rfl
      (by decide) (by decide)).trans (by decide)
  · exact (c8_port_spec _ _ _ 0 _).2.2.2.2.2.2.2.2.2.1 "80" true rfl rfl (by decide)
  · exact (c8_port_spec _ _ _ 5 _).1 (Or.inl (by decide))
  · exact (c8_port_spec _ _ _ 5 _).2.1 (Or.inl (by decide))


/-- **C1.** If a rule of an extended ACL names an unknown protocol,
`__set_protocol` appends a note and raises before `current_index` is ever
assigned, so the `log-action` check after the `except` block raises an
uncaught `UnboundLocalError` and the whole ACL translation aborts: the claim
that only the offending rule is dropped while the remaining rules are still
processed does not hold for this failure kind.  Concretely, on the ACL
`TEST` with rules `10 permit ospf any any` and `20 permit tcp any any`,
`__set_protocol` raises with the protocol note, `__set_rule_parts` escapes
with `UnboundLocalError`, and `process_acl` propagates that exception instead
of returning a result for the second rule. -/
theorem c1_unknown_protocol_aborts :
    set_protocol .ext (some "TEST") ["10", "permit", "ospf", "any", "any"]
        { seqId := 10, fwdAction := "ACCEPT" } =
      .error (some (mkNote (some "TEST") ["10", "permit", "ospf", "any", "any"]
        "protocol ospf does not exist in expected list of protocols")) ∧
    set_rule_parts .ext (fun _ => none) (some "TEST") "10 permit ospf any any" =
      .error "UnboundLocalError: local variable current_index referenced before assignment" ∧
    process_acl .ext (fun _ => none)
        { name := some "TEST", rules := [some "10 permit ospf any any", some "20 permit tcp any any"] }
        { name := some "TEST", rules := [some (some "10 permit ospf any any"), some (some "20 permit tcp any any")] } =
      .error "UnboundLocalError: local variable current_index referenced before assignment" := by
  decide


def ruleOk (ty : AclType) (svc : String → Option Nat) (aclName : Option String)
    (r : Option String) : Bool :=
  match set_rule_parts ty svc aclName (r.getD "") with
  | .ok (true, _, _) => true
  | _ => false

theorem processRulesAux_spec (ty : AclType) (svc : String → Option Nat)
    (nm : Option String) :
    ∀ (rules : List (Option String)) (i0 : Nat) (after : XeAclAfter),
    i0 + rules.length ≤ after.rules.length →
    ∀ {es : List AclEntry} {a : XeAclAfter} {ns : List Note} {ok : Bool},
    processRulesAux ty svc nm rules i0 after = .ok (es, a, ns, ok) →
    a.name = after.name ∧
    (ok = true ↔ ∀ r ∈ rules, ruleOk ty svc nm r = true) ∧
    (∀ j r, rules.get? j = some r → ruleOk ty svc nm r = true →
      a.rules.get? (i0 + j) = some none) ∧
    (∀ j r, rules.get? j = some r → ruleOk ty svc nm r = false →
      a.rules.get? (i0 + j) = after.rules.get? (i0 + j)) ∧
    (∀ k, k < i0 ∨ i0 + rules.length ≤ k → a.rules.get? k = after.rules.get? k) ∧
    a.rules.length = after.rules.length := by
  intro rules
  induction rules with
  | nil =>
    intro i0 after hlen es a ns ok hres
    rw [processRulesAux] at hres
    cases hres
    refine ⟨rfl, by simp, ?_, ?_, fun k hk => rfl, rfl⟩
    · intro j r hj
      simp at hj
    · intro j r hj
      simp at hj
  | cons r rest ih =>
    intro i0 after hlen es a ns ok hres
    rw [processRulesAux] at hres
    cases hsr : set_rule_parts ty svc nm (r.getD "") with
    | error msg =>
      rw [hsr] at hres
      exact absurd hres (by simp [bind, Except.bind])
    | ok v =>
      obtain ⟨rs, entry?, ns0⟩ := v
      rw [hsr] at hres
      simp only [bind, Except.bind] at hres
      have hrOk : ruleOk ty svc nm r = rs := by
        rw [ruleOk, hsr]
        cases rs <;> rfl
      cases rs with
      | true =>
        have hi0 : i0 < after.rules.length := by
          simp only [List.length_cons] at hlen
          omega
        rw [if_pos rfl, if_pos hi0] at hres
        cases hrec : processRulesAux ty svc nm rest (i0 + 1)
            { name := after.name, rules := after.rules.set i0 none } with
        | error msg =>
          rw [hrec] at hres
          exact absurd hres (by simp)
        | ok w =>
          obtain ⟨es1, a1, ns1, ok1⟩ := w
          rw [hrec] at hres
          simp only [Except.ok.injEq, Prod.mk.injEq] at hres
          obtain ⟨rfl, rfl, rfl, rfl⟩ := hres
          have hlen1 : (i0 + 1) + rest.length ≤ (after.rules.set i0 none).length := by
            simp only [List.length_set]
            simp only [List.length_cons] at hlen
            omega
          obtain ⟨hn1, hok1, hsucc1, hfail1, hout1, hl1⟩ := ih (i0 + 1) _ hlen1 hrec
          refine ⟨hn1, ?_, ?_, ?_, ?_, ?_⟩
          · rw [hok1]
            constructor
            · intro hall r2 hr2
              rcases List.mem_cons.mp hr2 with rfl | hr2
              · exact hrOk
              · exact hall r2 hr2
            · intro hall r2 hr2
              exact hall r2 (List.mem_cons_of_mem _ hr2)
          · intro j r2 hj hok2
            cases j with
            | zero =>
              have hq := hout1 i0 (Or.inl (Nat.lt_succ_self i0))
              simp only [Nat.add_zero]
              rw [hq, List.get?_set_eq_of_lt _ hi0]
            | succ j =>
              have hq := hsucc1 j r2 (by simpa using hj) hok2
              have hidx : i0 + (j + 1) = (i0 + 1) + j := by omega
              rw [hidx]
              exact hq
          · intro j r2 hj hok2
            cases j with
            | zero =>
              simp only [List.get?_cons_zero, Option.some.injEq] at hj
              rw [← hj, hrOk] at hok2
              exact absurd hok2 (by simp)
            | succ j =>
              have hq := hfail1 j r2 (by simpa using hj) hok2
              have hidx : i0 + (j + 1) = (i0 + 1) + j := by omega
              rw [hidx, hq, List.get?_set_ne]
              omega
          · intro k hk
            have hkne : i0 ≠ k := by
              simp only [List.length_cons] at hk
              omega
            have hq := hout1 k (by simp only [List.length_cons] at hk ⊢; omega)
            rw [hq, List.get?_set_ne _ _ hkne]
          · rw [hl1, List.length_set]
      | false =>
        rw [if_neg (by simp)] at hres
        cases hrec : processRulesAux ty svc nm rest (i0 + 1) after with
        | error msg =>
          rw [hrec] at hres
          exact absurd hres (by simp)
        | ok w =>
          obtain ⟨es1, a1, ns1, ok1⟩ := w
          rw [hrec] at hres
          simp only [Except.ok.injEq, Prod.mk.injEq] at hres
          obtain ⟨rfl, rfl, rfl, rfl⟩ := hres
          have hlen1 : (i0 + 1) + rest.length ≤ after.rules.length := by
            simp only [List.length_cons] at hlen
            omega
          obtain ⟨hn1, hok1, hsucc1, hfail1, hout1, hl1⟩ := ih (i0 + 1) _ hlen1 hrec
          refine ⟨hn1, ?_, ?_, ?_, ?_, hl1⟩
          · constructor
            · intro h
              exact absurd h (by simp)
            · intro hall
              have := hall r (List.mem_cons_self _ _)
              rw [hrOk] at this
              exact absurd this (by simp)
          · intro j r2 hj hok2
            cases j with
            | zero =>
              simp only [List.get?_cons_zero, Option.some.injEq] at hj
              rw [← hj, hrOk] at hok2
              exact absurd hok2 (by simp)
            | succ j =>
              have hq := hsucc1 j r2 (by simpa using hj) hok2
              have hidx : i0 + (j + 1) = (i0 + 1) + j := by omega
              rw [hidx]
              exact hq
          · intro j r2 hj hok2
            cases j with
            | zero =>
              exact hout1 i0 (Or.inl (Nat.lt_succ_self i0))
            | succ j =>
              have hq := hfail1 j r2 (by simpa using hj) hok2
              have hidx : i0 + (j + 1) = (i0 + 1) + j := by omega
              rw [hidx]
              exact hq
          · intro k hk
            refine hout1 k ?_
            simp only [List.length_cons] at hk
            omega


/-- C9: when `process_acl` completes, the leftover `name` field ends up
deleted exactly when every rule of the ACL translated successfully; every
successful rule has its leftover slot nulled, and every failed rule keeps its
original leftover slot. -/
theorem c9_leftover_name_gating (ty : AclType) (svc : String → Option Nat)
    (xe : XeAcl) (after : XeAclAfter)
    (hn : after.name.isSome)
    (hlen : xe.rules.length ≤ after.rules.length)
    {es : List AclEntry} {a : XeAclAfter} {ns : List Note}
    (hres : process_acl ty svc xe after = .ok (es, a, ns)) :
    (a.name = none ↔ ∀ r ∈ xe.rules, ruleOk ty svc xe.name r = true) ∧
    (∀ j r, xe.rules.get? j = some r → ruleOk ty svc xe.name r = true →
      a.rules.get? j = some none) ∧
    (∀ j r, xe.rules.get? j = some r → ruleOk ty svc xe.name r = false →
      a.rules.get? j = after.rules.get? j) := by
  rw [process_acl] at hres
  simp only [bind, Except.bind] at hres
  cases hpr : processRulesAux ty svc xe.name xe.rules 0 after with
  | error msg =>
    rw [hpr] at hres
    exact absurd hres (by simp)
  | ok w =>
    obtain ⟨es0, a0, ns0, ok0⟩ := w
    rw [hpr] at hres
    dsimp only at hres
    obtain ⟨hname, hokIff, hsucc, hfail, hout, hl⟩ :=
      processRulesAux_spec ty svc xe.name xe.rules 0 after (by simpa using hlen) hpr
    obtain ⟨nm0, hnm⟩ := Option.isSome_iff_exists.mp hn
    cases ok0 with
    | true =>
      rw [if_pos rfl] at hres
      rw [hname, hnm] at hres
      simp only [Except.ok.injEq, Prod.mk.injEq] at hres
      obtain ⟨rfl, rfl, rfl⟩ := hres
      refine ⟨?_, ?_, ?_⟩
      · simp only [true_iff]
        exact hokIff.mp rfl
      · intro j r hj hok
        simpa using hsucc j r hj hok
      · intro j r hj hok
        simpa using hfail j r hj hok
    | false =>
      rw [if_neg (by simp)] at hres
      simp only [Except.ok.injEq, Prod.mk.injEq] at hres
      obtain ⟨rfl, rfl, rfl⟩ := hres
      refine ⟨?_, ?_, ?_⟩
      · rw [hname, hnm]
        simp only [iff_false, reduceCtorEq, false_iff]
        intro hall
        have := hokIff.mpr hall
        simp at this
      · intro j r hj hok
        simpa using hsucc j r hj hok
      · intro j r hj hok
        simpa using hfail j r hj hok

/-- C9 witness: a standard ACL whose two rules both translate; the leftover
name is deleted and both leftover rule slots are nulled. -/
theorem c9_witness :
    (({ name := none, rules := [none, none] } : XeAclAfter).name = none ↔
      ∀ r ∈ ({ name := some "10",
               rules := [some "10 permit 10.0.0.0 0.255.255.255", some "20 deny any"] } : XeAcl).rules,
        ruleOk .std (fun _ => none) (some "10") r = true) ∧
    (∀ j r,
      ({ name := some "10",
         rules := [some "10 permit 10.0.0.0 0.255.255.255", some "20 deny any"] } : XeAcl).rules.get? j = some r →
      ruleOk .std (fun _ => none) (some "10") r = true →
      (([none, none] : List (Option (Option String)))).get? j = some none) ∧
    (∀ j r,
      ({ name := some "10",
         rules := [some "10 permit 10.0.0.0 0.255.255.255", some "20 deny any"] } : XeAcl).rules.get? j = some r →
      ruleOk .std (fun _ => none) (some "10") r = false →
      (([none, none] : List (Option (Option String)))).get? j =
        ([some (some "10 permit 10.0.0.0 0.255.255.255"), some (some "20 deny any")] :
          List (Option (Option String))).get? j) :=
  @c9_leftover_name_gating .std (fun _ => none)
    { name := some "10", rules := [some "10 permit 10.0.0.0 0.255.255.255", some "20 deny any"] }
    { name := some "10",
      rules := [some (some "10 permit 10.0.0.0 0.255.255.255"), some (some "20 deny any")] }
    (by decide) (by decide)
    [{ seqId := 10, fwdAction := "ACCEPT", srcAddr := some "10.0.0.0/8",
       logAction := some "LOG_NONE" },
     { seqId := 20, fwdAction := "REJECT", srcAddr := some "0.0.0.0/0",
       logAction := some "LOG_NONE" }]
    { name := none, rules := [none, none] } [] (by decide)

/-! ## OSPF data model (`xe_ospfv2.py`) -/

/-- A JSON area identifier: a number or a string.  `network`-statement areas
default to the *string* `"0"` while NED-defined areas typically carry
numbers. -/
inductive AreaVal where
  | num (n : Int)
  | str (s : String)
  deriving DecidableEq, Repr

/-- Python `==` on identifiers: numbers and strings never compare equal. -/
def pyEqA : AreaVal → AreaVal → Bool
  | .num a, .num b => a == b
  | .str a, .str b => a == b
  | _, _ => false

/-- One entry of `ospf["network"]`; every key is optional. -/
structure NetStmt where
  ip : Option String := none
  mask : Option String := none
  area : Option AreaVal := none
  deriving DecidableEq, Repr

/-- One candidate VRF interface; `primaryAddress` is the value at
`vrf_intf["ip"]["address"]["primary"]["address"]`. -/
structure VrfIntf where
  type : String
  name : String
  primaryAddress : String
  deriving DecidableEq, Repr

/-! ## `sort_by_mask` and the stable sort of network statements -/

/-- The octet loop of `sort_by_mask`: convert both octets with `int`, return
the difference at the first position where they differ, else 0. -/
def cmpOctets : List String → List String → Except String Int
  | a :: as, b :: bs =>
    (match pyInt a, pyInt b with
     | some ia, some ib => if ia = ib then cmpOctets as bs else .ok (ia - ib)
     | _, _ => .error "ValueError: invalid literal for int")
  | _, _ => .ok 0

/-- The `sort_by_mask` comparator: falsy (missing or empty) masks sort last,
otherwise masks are split into four octets and compared numerically octet by
octet; a mask that does not split into exactly four octets raises. -/
def sort_by_mask (s1 s2 : NetStmt) : Except String Int :=
  if pyFalsyStr s1.mask ∧ pyFalsyStr s2.mask then .ok 0
  else if pyFalsyStr s1.mask then .ok 1
  else if pyFalsyStr s2.mask then .ok (-1)
  else
    let o1 := pySplitDot (s1.mask.getD "")
    let o2 := pySplitDot (s2.mask.getD "")
    if o1.length ≠ 4 ∨ o2.length ≠ 4 then .error "Invalid IP string provided"
    else cmpOctets o1 o2

/-- Stable insertion step for `sorted(..., key=cmp_to_key(sort_by_mask))`:
the new element stops in front of the first element that is not strictly
smaller, which preserves the relative order of comparator-equal elements. -/
def insertStmtM (x : NetStmt) : List NetStmt → Except String (List NetStmt)
  | [] => .ok [x]
  | y :: ys => do
    let c ← sort_by_mask x y
    if c ≤ 0 then .ok (x :: y :: ys)
    else do
      let r ← insertStmtM x ys
      .ok (y :: r)

/-- `sorted(network_statements, key=cmp_to_key(sort_by_mask))`: Python uses a
stable sort, and for a comparator that is a total preorder the stable result
is unique, so a stable insertion sort models it; comparator exceptions
propagate. -/
def sortStmts : List NetStmt → Except String (List NetStmt)
  | [] => .ok []
  | x :: xs => do
    let r ← sortStmts xs
    insertStmtM x r

/-- The sort key of a statement: `none` for a falsy mask (sorts last),
otherwise the octet values. -/
def maskKey (s : NetStmt) : Option (List Int) :=
  if pyFalsyStr s.mask then none
  else some ((pySplitDot (s.mask.getD "")).map (fun t => (pyInt t).getD 0))

/-- Total counterpart of the octet loop on parsed keys. -/
def lexCmp : List Int → List Int → Int
  | a :: as, b :: bs => if a = b then lexCmp as bs else a - b
  | _, _ => 0

/-- Total counterpart of `sort_by_mask` on sort keys. -/
def cmpKey : Option (List Int) → Option (List Int) → Int
  | none, none => 0
  | none, some _ => 1
  | some _, none => -1
  | some a, some b => lexCmp a b

/-- Pure stable insertion, mirroring `insertStmtM` on valid inputs. -/
def insertT (x : NetStmt) : List NetStmt → List NetStmt
  | [] => [x]
  | y :: ys =>
    if cmpKey (maskKey x) (maskKey y) ≤ 0 then x :: y :: ys else y :: insertT x ys

/-- Pure stable insertion sort, mirroring `sortStmts` on valid inputs. -/
def isortT : List NetStmt → List NetStmt
  | [] => []
  | x :: xs => insertT x (isortT xs)

/-- A mask octet that `int` accepts with a nonnegative value. -/
def validMaskOctet (t : String) : Bool :=
  match pyInt t with
  | some n => decide (0 ≤ n)
  | none => false

/-- A statement whose mask either is falsy or splits into four
`int`-convertible nonnegative octets, so `sort_by_mask` never raises on it. -/
def validMask (s : NetStmt) : Bool :=
  pyFalsyStr s.mask ||
    ((pySplitDot (s.mask.getD "")).length == 4 &&
      (pySplitDot (s.mask.getD "")).all validMaskOctet)

/-! ## `get_binary_str`, `binary_merge` -/

/-- Binary digits of `n`, most significant first (`go fuel n`). -/
def natBinGo : Nat → Nat → List Char
  | 0, _ => []
  | fuel + 1, n =>
    if n = 0 then []
    else natBinGo fuel (n / 2) ++ [if n % 2 = 1 then '1' else '0']

/-- Python `bin`-style digits of a natural number. -/
def natBin (n : Nat) : String :=
  if n = 0 then "0" else mkStr (natBinGo (n + 1) n)

/-- Python `format(n, "08b")`: binary digits zero-padded to width 8, with the
minus sign counted inside the width for negative numbers. -/
def formatBin8 (n : Int) : String :=
  if 0 ≤ n then
    let s := natBin n.toNat
    mkStr (List.replicate (8 - s.data.length) '0') ++ s
  else
    let s := natBin (-n).toNat
    "-" ++ (mkStr (List.replicate (7 - s.data.length) '0') ++ s)

/-- `get_binary_str`: split on dots, convert each octet with `int` (raising
`ValueError` on failure, e.g. for the empty string), format each as `"08b"`
and concatenate. -/
def get_binary_str (s : String) : Except String String := do
  let vals ← (pySplitDot s).mapM (fun octet =>
    match pyInt octet with
    | some n => Except.ok n
    | none => Except.error "ValueError: invalid literal for int with base 10")
  pure (String.join (vals.map formatBin8))

/-- The index loop of `binary_merge`: walk the bits of the first string,
indexing into the second (an `IndexError` when the second is shorter). -/
def mergeBits : List Char → List Char → Except String (List Char)
  | [], _ => .ok []
  | _ :: _, [] => .error "IndexError: string index out of range"
  | c1 :: r1, c2 :: r2 => do
    let rest ← mergeBits r1 r2
    .ok ((if c1 = '1' ∨ c2 = '1' then '1' else '0') :: rest)

/-- `binary_merge(ip, mask)`: bitwise OR of the two binary strings. -/
def binary_merge (ip mask : String) : Except String String := do
  let b1 ← get_binary_str ip
  let b2 ← get_binary_str mask
  let bits ← mergeBits b1.data b2.data
  pure (mkStr bits)

/-- Total counterpart of `get_binary_str` (octets that fail `int` count 0;
irrelevant on valid quads). -/
def pureBinStr (s : String) : String :=
  String.join ((pySplitDot s).map (fun octet => formatBin8 ((pyInt octet).getD 0)))

/-- Total counterpart of `binary_merge` on valid quads. -/
def pureMerge (ip mask : String) : String :=
  mkStr (List.zipWith (fun c1 c2 => if c1 = '1' ∨ c2 = '1' then '1' else '0')
    (pureBinStr ip).data (pureBinStr mask).data)

/-- A standard dotted quad: four octets, each an `int`-convertible value in
`0..255`. -/
def validQuad (s : String) : Bool :=
  (pySplitDot s).length == 4 &&
    (pySplitDot s).all (fun t =>
      match pyInt t with
      | some n => decide (0 ≤ n ∧ n ≤ 255)
      | none => false)

/-! ## `get_interfaces_by_area` -/

/-- `vrf_intf["type"] + vrf_intf["name"]`. -/
def fullName (i : VrfIntf) : String := i.type ++ i.name

/-- Appending an interface under an area key of the `interfaces_by_area`
dictionary (insertion-ordered, keyed by Python equality). -/
def addToArea (m : List (AreaVal × List VrfIntf)) (a : AreaVal) (i : VrfIntf) :
    List (AreaVal × List VrfIntf) :=
  match m with
  | [] => [(a, [i])]
  | (k, l) :: rest =>
    if pyEqA k a then (k, l ++ [i]) :: rest else (k, l) :: addToArea rest a i

/-- `get_interfaces_by_area`: sort the statements, then for each statement in
order bind every not-yet-processed interface whose merged address equals the
statement's merged address to the statement's area. -/
def get_interfaces_by_area (stmts : List NetStmt) (intfs : List VrfIntf) :
    Except String (List (AreaVal × List VrfIntf)) := do
  let sorted ← sortStmts stmts
  let acc ← sorted.foldlM
    (fun (acc : List String × List (AreaVal × List VrfIntf)) stmt => do
      let stmtMask := stmt.mask.getD ""
      let areaId := stmt.area.getD (.str "0")
      let mergedStmt ← binary_merge (stmt.ip.getD "") (stmt.mask.getD "")
      intfs.foldlM
        (fun (acc2 : List String × List (AreaVal × List VrfIntf)) intf => do
          if acc2.1.contains (fullName intf) then pure acc2
          else do
            let mergedIntf ← binary_merge intf.primaryAddress stmtMask
            if mergedStmt = mergedIntf then
              pure (fullName intf :: acc2.1, addToArea acc2.2 areaId intf)
            else pure acc2)
        acc)
    (([] : List String), ([] : List (AreaVal × List VrfIntf)))
  pure acc.2

/-- The claim-level match predicate: bitwise OR of the statement address with
its mask equals the bitwise OR of the interface address with the same mask. -/
def matchesB (stmt : NetStmt) (intf : VrfIntf) : Bool :=
  pureMerge (stmt.ip.getD "") (stmt.mask.getD "") ==
    pureMerge intf.primaryAddress (stmt.mask.getD "")

/-- `net_stmt.get("area", "0")`. -/
def areaOf (stmt : NetStmt) : AreaVal := stmt.area.getD (.str "0")

/-- Pure counterpart of the inner interface loop. -/
def assignInner (stmt : NetStmt) :
    List VrfIntf → (List String × List (AreaVal × List VrfIntf)) →
      List String × List (AreaVal × List VrfIntf)
  | [], acc => acc
  | i :: is, acc =>
    if acc.1.contains (fullName i) then assignInner stmt is acc
    else if matchesB stmt i then
      assignInner stmt is (fullName i :: acc.1, addToArea acc.2 (areaOf stmt) i)
    else assignInner stmt is acc

/-- Pure counterpart of the statement loop. -/
def assignGo (intfs : List VrfIntf) :
    List NetStmt → (List String × List (AreaVal × List VrfIntf)) →
      List String × List (AreaVal × List VrfIntf)
  | [], acc => acc
  | stmt :: rest, acc => assignGo intfs rest (assignInner stmt intfs acc)

/-- Pure counterpart of the whole binder, from the empty state. -/
def assignAll (sorted : List NetStmt) (intfs : List VrfIntf) :
    List String × List (AreaVal × List VrfIntf) :=
  assignGo intfs sorted (([] : List String), ([] : List (AreaVal × List VrfIntf)))

/-- The area of the first statement, in sorted order, that matches the
interface. -/
def firstMatch (sorted : List NetStmt) (intf : VrfIntf) : Option AreaVal :=
  (sorted.find? (fun stmt => matchesB stmt intf)).map areaOf

/-- Membership of an interface in the binding of an area. -/
def inArea (m : List (AreaVal × List VrfIntf)) (a : AreaVal) (intf : VrfIntf) :
    Bool :=
  m.any (fun kv => pyEqA kv.1 a && kv.2.contains intf)

/-- How many times interfaces of a given full name occur across all areas. -/
def countName (m : List (AreaVal × List VrfIntf)) (nm : String) : Nat :=
  (m.map (fun kv => kv.2.countP (fun intf => fullName intf == nm))).sum

/-! ## The destination-tree accessors (`get_ospfv2_global`, `get_ospfv2_area`,
`get_area_by_id`) -/

/-- Generic stand-in for the contents of a destination container that other
code populates. -/
abbrev KVList := List (String × String)

/-- One `openconfig-network-instance:area` entry; `rest` stands for the
fields callers populate after creation. -/
structure OcArea where
  identifier : AreaVal
  rest : KVList := []
  deriving DecidableEq, Repr

/-- The `openconfig-network-instance:ospfv2` container: its `global` mapping
(key `openconfig-network-instance:global`), its `areas/area` list (key
`openconfig-network-instance:areas`), and, separately, whether a bare
`areas` key is present — the key `get_ospfv2_area`'s creation guard tests,
which nothing in the program ever writes. -/
structure Ospfv2Node where
  glob : Option KVList := none
  areas : Option (List OcArea) := none
  areasBareKey : Bool := false
  deriving DecidableEq, Repr

/-- One entry of the `protocol` list. -/
structure NetProtocol where
  ospfv2 : Option Ospfv2Node := none
  deriving DecidableEq, Repr

/-- `get_ospfv2_global`: guarded by `len(net_protocols) >= prot_index` (the
source's off-by-one comparison is kept), creates the missing `ospfv2` and
`global` containers and returns the `global` node. -/
def get_ospfv2_global (ps : List NetProtocol) (i : Nat) :
    Except String (List NetProtocol × KVList) :=
  if ps.length ≥ i then
    match ps.get? i with
    | none => .error "IndexError: list index out of range"
    | some p =>
      let o := p.ospfv2.getD {}
      let g := o.glob.getD []
      .ok (ps.set i { p with ospfv2 := some { o with glob := some g } }, g)
  else .error ("The protocol index " ++ toString i ++ " does not exist.")

/-- `get_ospfv2_area`: like `get_ospfv2_global`, except that the creation
guard tests the bare key `areas` (`areasBareKey`) while both the write and
the read use the key `openconfig-network-instance:areas` (`areas`): when the
bare key is absent the prefixed container is overwritten with a fresh
`{"openconfig-network-instance:area": []}` even if it already holds entries;
when the bare key is present nothing is created and a missing prefixed
container raises `KeyError`. -/
def get_ospfv2_area (ps : List NetProtocol) (i : Nat) :
    Except String (List NetProtocol × List OcArea) :=
  if ps.length ≥ i then
    match ps.get? i with
    | none => .error "IndexError: list index out of range"
    | some p =>
      let o := p.ospfv2.getD {}
      if o.areasBareKey then
        match o.areas with
        | none => .error "KeyError: openconfig-network-instance:areas"
        | some l => .ok (ps.set i { p with ospfv2 := some o }, l)
      else
        .ok (ps.set i { p with ospfv2 := some { o with areas := some [] } }, [])
  else .error ("The protocol index " ++ toString i ++ " does not exist.")

/-- `get_area_by_id`: linear scan by identifier; on a miss a new entry with
only the identifier populated is appended and returned. -/
def get_area_by_id (areas : List OcArea) (id : AreaVal) : List OcArea × OcArea :=
  match areas.find? (fun a => pyEqA a.identifier id) with
  | some a => (areas, a)
  | none =>
    let newArea : OcArea := { identifier := id }
    (areas ++ [newArea], newArea)

/-! ## Area discovery and inter-area propagation policies -/

/-- One entry of an area's `filter-list`; `pfx` models its `prefix` key. -/
structure FilterListEntry where
  pfx : String
  deriving DecidableEq, Repr

/-- One NED-defined OSPF area (only the fields the policy logic reads). -/
structure NedArea where
  id : AreaVal
  filterList : Option (List FilterListEntry) := none
  deriving DecidableEq, Repr

/-- One OSPF process (only the fields the policy logic reads). -/
structure OspfProc where
  areas : Option (List NedArea) := none
  network : Option (List NetStmt) := none
  deriving DecidableEq, Repr

/-- `populate_area_list`: NED areas first; then one area per network
statement whose id (default the string `"0"`) is not among the NED area ids —
the set is not extended while scanning statements, exactly as in the source. -/
def populate_area_list (ospf : OspfProc) : List NedArea :=
  let nedAreas := ospf.areas.getD []
  let areaIdSet := nedAreas.map (fun a => a.id)
  nedAreas ++
    ((ospf.network.getD []).filterMap (fun stmt =>
      let areaId := stmt.area.getD (.str "0")
      if areaIdSet.any (fun x => pyEqA x areaId) then none
      else some { id := areaId }))

/-- `check_for_area_0`: Python `area["id"] == 0` with the *number* zero. -/
def check_for_area_0 (area_list : List NedArea) : Bool :=
  area_list.any (fun a => pyEqA a.id (.num 0))

/-- One emitted inter-area propagation policy. -/
structure IAPolicy where
  srcArea : Int
  dstArea : AreaVal
  importPolicy : List String
  deriving DecidableEq, Repr

/-- `set_inter_area_propagation_policy`: emits a policy only when the area
has a `filter-list` with exactly one entry (source area fixed to 0, the
leftover filter-list deletion is elided as it does not feed back into the
emitted policies). -/
def set_inter_area_propagation_policy (area : NedArea) (pols : List IAPolicy) :
    List IAPolicy :=
  match area.filterList with
  | some fl =>
    if fl.length = 1 then
      pols ++ [{ srcArea := 0, dstArea := area.id,
                 importPolicy := [(fl.getD 0 { pfx := "" }).pfx] }]
    else pols
  | none => pols

/-- Python `int(...)` applied to an area id value. -/
def pyIntOfVal : AreaVal → Except String Int
  | .num n => .ok n
  | .str s =>
    match pyInt s with
    | some n => .ok n
    | none => .error "ValueError: invalid literal for int with base 10"

/-- One area of the `check_areas` loop, policy aspect: when area 0 is
present and `int(area["id"])` is nonzero, run
`set_inter_area_propagation_policy` (the `and` short-circuit means the `int`
conversion happens only when area 0 is present). -/
def policyStep (is0 : Bool) (pols : List IAPolicy) (area : NedArea) :
    Except String (List IAPolicy) :=
  if is0 then do
    let n ← pyIntOfVal area.id
    if n ≠ 0 then pure (set_inter_area_propagation_policy area pols)
    else pure pols
  else pure pols

/-- The policy-emission aspect of `check_areas` over all discovered areas. -/
def check_areas_policies (ospf : OspfProc) : Except String (List IAPolicy) := do
  let area_list := populate_area_list ospf
  let is0 := check_for_area_0 area_list
  area_list.foldlM (policyStep is0) []

/-- Declarative statement of the amended claim: a policy is emitted for an
area exactly when area 0 is present, the area's id converts to a nonzero
integer, and the area carries exactly one filter-list entry. -/
def specPolicies (ospf : OspfProc) : List IAPolicy :=
  let area_list := populate_area_list ospf
  if check_for_area_0 area_list then
    area_list.filterMap (fun area =>
      match area.filterList with
      | some fl =>
        if ((pyIntOfVal area.id).toOption.getD 0) ≠ 0 ∧ fl.length = 1 then
          some { srcArea := 0, dstArea := area.id,
                 importPolicy := [(fl.getD 0 { pfx := "" }).pfx] }
        else none
      | none => none)
  else []

/-! ## `set_passive` and `set_timers_lsa` (leftover handling) -/

/-- The `ospf["passive-interface"]` section: its optional `interface` list of
names. -/
structure PassiveIntfSection where
  interface : Option (List String) := none
  deriving DecidableEq, Repr

/-- The slice of one OSPF process that `set_passive` reads. -/
structure OspfPassive where
  passiveInterface : Option PassiveIntfSection := none
  deriving DecidableEq, Repr

/-- The interface config fields `set_passive` writes; `passiveBare` is the
unnamespaced `"passive"` key written by the for-else branch. -/
structure IntfConfig where
  passive : Option Bool := none
  passiveBare : Option Bool := none
  deriving DecidableEq, Repr

/-- `set_passive`: writes the passive flag when the interface name occurs in
the passive-interface list, then deletes the whole leftover
`passive-interface` section whenever it is present. -/
def set_passive (ospf ospf_leftover : OspfPassive) (cfg : IntfConfig)
    (intfName : String) : OspfPassive × IntfConfig :=
  let cfg2 :=
    match ospf.passiveInterface with
    | some sec =>
      match sec.interface with
      | some names =>
        if names.contains intfName then { cfg with passive := some true }
        else { cfg with passiveBare := some false }
      | none => cfg
    | none => cfg
  let leftover :=
    if ospf_leftover.passiveInterface.isSome then
      ({ passiveInterface := none } : OspfPassive)
    else ospf_leftover
  (leftover, cfg2)

/-- `ospf["timers"]["throttle"]["lsa"]` with its three optional intervals. -/
structure LsaTimers where
  startInterval : Option Int := none
  holdInterval : Option Int := none
  maxInterval : Option Int := none
  deriving DecidableEq, Repr

/-- The `throttle` container (only the `lsa` slice is modelled). -/
structure OspfThrottle where
  lsa : Option LsaTimers := none
  deriving DecidableEq, Repr

/-- The `timers` container. -/
structure OspfTimers where
  throttle : Option OspfThrottle := none
  deriving DecidableEq, Repr

/-- The slice of one OSPF process that `set_timers_lsa` reads. -/
structure OspfWithTimers where
  timers : Option OspfTimers := none
  deriving DecidableEq, Repr

/-- The destination `timers/lsa-generation/config` payload. -/
structure LsaGenConfig where
  initialDelay : Int
  maximumDelay : Int
  holdTime : Int
  deriving DecidableEq, Repr

/-- `del ospf_leftover["timers"]["throttle"]["lsa"]`, raising `KeyError`
along a missing path. -/
def delLsa (leftover : OspfWithTimers) : Except String OspfWithTimers :=
  match leftover.timers with
  | none => .error "KeyError: timers"
  | some t =>
    match t.throttle with
    | none => .error "KeyError: throttle"
    | some th =>
      match th.lsa with
      | none => .error "KeyError: lsa"
      | some _ => .ok { timers := some { throttle := some { lsa := none } } }

/-- `set_timers_lsa`: returns the mutated leftover and the destination
`lsa-generation` config (if any was written).  With no source `lsa` group it
returns untouched; with a partially-specified group it raises before the
deletion; otherwise (all three intervals, or none of them) it deletes the
leftover group. -/
def set_timers_lsa (ospf leftover : OspfWithTimers) :
    Except String (OspfWithTimers × Option LsaGenConfig) :=
  match ospf.timers.bind (fun t => t.throttle) |>.bind (fun th => th.lsa) with
  | none => .ok (leftover, none)
  | some lsa =>
    if lsa.startInterval.isSome ∨ lsa.holdInterval.isSome ∨ lsa.maxInterval.isSome then
      if lsa.startInterval.isSome ∧ lsa.holdInterval.isSome ∧ lsa.maxInterval.isSome then do
        let cfg : LsaGenConfig :=
          { initialDelay := lsa.startInterval.getD 0,
            maximumDelay := lsa.maxInterval.getD 0,
            holdTime := lsa.holdInterval.getD 0 }
        let l ← delLsa leftover
        .ok (l, some cfg)
      else
        .error "XE OSPF throttle timers lsa needs values for start-interval, hold-interval, and max-interval"
    else do
      let l ← delLsa leftover
      .ok (l, none)

/-! ## Claim C2: idempotent get-or-create accessors -/

theorem pyEqA_refl (a : AreaVal) : pyEqA a a = true := by
  cases a <;> simp [pyEqA]

theorem pyEqA_iff {a b : AreaVal} : pyEqA a b = true ↔ a = b := by
  cases a <;> cases b <;> simp [pyEqA]

theorem set_get?_self {α : Type _} (l : List α) (i : Nat) (a : α)
    (h : l.get? i = some a) : l.set i a = l := by
  induction l generalizing i with
  | nil => simp at h
  | cons x xs ih =>
    cases i with
    | zero =>
      simp only [List.get?_cons_zero, Option.some.injEq] at h
      rw [← h]
      rfl
    | succ j =>
      simp only [List.get?_cons_succ] at h
      simp only [List.set_cons_succ, List.cons.injEq, true_and]
      exact ih j h

theorem get_ospfv2_global_present {ps : List NetProtocol} {i : Nat}
    {p : NetProtocol} {o : Ospfv2Node} {g : KVList}
    (hp : ps.get? i = some p) (ho : p.ospfv2 = some o) (hg : o.glob = some g) :
    get_ospfv2_global ps i = .ok (ps, g) := by
  have hlen : ps.length ≥ i := Nat.le_of_lt (List.get?_eq_some.mp hp).1
  rw [get_ospfv2_global, if_pos hlen, hp]
  obtain ⟨gl, ar, ab⟩ := o
  obtain ⟨po⟩ := p
  simp only at hg
  simp only at ho
  subst hg
  subst ho
  simp only [Option.getD_some, set_get?_self ps i _ hp]

theorem get_ospfv2_global_creates {ps : List NetProtocol} {i : Nat}
    (hi : i < ps.length) :
    ∃ ps1 p1 o1 g, get_ospfv2_global ps i = .ok (ps1, g) ∧
      ps1.get? i = some p1 ∧ p1.ospfv2 = some o1 ∧ o1.glob = some g := by
  have hp : ps.get? i = some (ps.get ⟨i, hi⟩) := List.get?_eq_get hi
  have hcall : get_ospfv2_global ps i = .ok (ps.set i
      ⟨some ⟨some (((ps.get ⟨i, hi⟩).ospfv2.getD {}).glob.getD []),
            ((ps.get ⟨i, hi⟩).ospfv2.getD {}).areas,
            ((ps.get ⟨i, hi⟩).ospfv2.getD {}).areasBareKey⟩⟩,
      ((ps.get ⟨i, hi⟩).ospfv2.getD {}).glob.getD []) := by
    rw [get_ospfv2_global, if_pos (Nat.le_of_lt hi), hp]
  exact ⟨_, _, _, _, hcall, List.get?_set_eq_of_lt _ hi, rfl, rfl⟩

/-- **C2.** The claimed get-or-create idempotence holds for
`get_ospfv2_global` — a second call with the same index returns exactly the
node the first call created and leaves the state unchanged — and for
`get_area_by_id` — a second lookup with the same identifier returns the same
entry without appending another, also after further entries were appended.
It fails for `get_ospfv2_area`: its creation guard tests the bare key
`areas` while the write and the read use `openconfig-network-instance:areas`,
and since nothing in the program ever writes a bare `areas` key the guard
always fires, so every call overwrites the container with a fresh empty area
list; in particular a second call returns the empty list and discards any
area entries appended between the two calls, as the closed last conjunct
shows on a container already holding area 7. -/
theorem c2_area_get_or_create_resets :
    (∀ (ps : List NetProtocol) (i : Nat), i < ps.length →
      (∀ p o g, ps.get? i = some p → p.ospfv2 = some o → o.glob = some g →
        get_ospfv2_global ps i = .ok (ps, g)) ∧
      (∃ ps1 g, get_ospfv2_global ps i = .ok (ps1, g) ∧
        get_ospfv2_global ps1 i = .ok (ps1, g))) ∧
    (∀ (areas : List OcArea) (id : AreaVal),
      get_area_by_id (get_area_by_id areas id).1 id = get_area_by_id areas id ∧
      (∀ extra, get_area_by_id ((get_area_by_id areas id).1 ++ extra) id =
        ((get_area_by_id areas id).1 ++ extra, (get_area_by_id areas id).2))) ∧
    (∀ (ps : List NetProtocol) (i : Nat) (p : NetProtocol) (o : Ospfv2Node),
      ps.get? i = some p → p.ospfv2 = some o → o.areasBareKey = false →
      get_ospfv2_area ps i =
        .ok (ps.set i { p with ospfv2 := some { o with areas := some [] } },
          [])) ∧
    (get_ospfv2_area
        [NetProtocol.mk (some (Ospfv2Node.mk none
          (some [OcArea.mk (AreaVal.num 7) []]) false))] 0 =
      .ok ([NetProtocol.mk (some (Ospfv2Node.mk none (some []) false))],
        [])) := by
  refine ⟨?_, ?_, ?_, by decide⟩
  · intro ps i hi
    refine ⟨fun p o g hp ho hg => get_ospfv2_global_present hp ho hg, ?_⟩
    obtain ⟨ps1, p1, o1, g, hcall, hp1, ho1, hg1⟩ := get_ospfv2_global_creates hi
    exact ⟨ps1, g, hcall, get_ospfv2_global_present hp1 ho1 hg1⟩
  · intro areas id
    cases hf : areas.find? (fun a => pyEqA a.identifier id) with
    | some a =>
      have h1 : get_area_by_id areas id = (areas, a) := by
        rw [get_area_by_id, hf]
      rw [h1]
      constructor
      · rw [get_area_by_id, hf]
      · intro extra
        rw [get_area_by_id, List.find?_append, hf]
        rfl
    | none =>
      have h1 : get_area_by_id areas id =
          (areas ++ [{ identifier := id }], { identifier := id }) := by
        rw [get_area_by_id, hf]
      rw [h1]
      have hnew : List.find? (fun a : OcArea => pyEqA a.identifier id)
          [({ identifier := id } : OcArea)] =
          some ({ identifier := id } : OcArea) :=
        List.find?_cons_of_pos _ (pyEqA_refl id)
      constructor
      · rw [get_area_by_id, List.find?_append, hf, Option.none_or, hnew]
      · intro extra
        rw [get_area_by_id, List.append_assoc, List.find?_append, hf, Option.none_or,
          List.find?_append, hnew]
        simp [List.append_assoc]
  · intro ps i p o hp ho hb
    have hlen : ps.length ≥ i := Nat.le_of_lt (List.get?_eq_some.mp hp).1
    rw [get_ospfv2_area, if_pos hlen, hp]
    dsimp only
    rw [ho]
    simp only [Option.getD_some]
    rw [hb]
    rfl

/-- C2 witness: a singleton protocol list exercising every hypothesis: the
`global` container is created on the first call and stable on the second,
and `get_ospfv2_area` on a protocol whose areas container already holds
area 7 (and, as always in this program, no bare `areas` key) overwrites it
with a fresh empty list. -/
theorem c2_witness :
    (0 < ([{}] : List NetProtocol).length) ∧
    (∃ ps1 g, get_ospfv2_global ([{}] : List NetProtocol) 0 = .ok (ps1, g) ∧
      get_ospfv2_global ps1 0 = .ok (ps1, g)) ∧
    ([NetProtocol.mk (some (Ospfv2Node.mk none
        (some [OcArea.mk (AreaVal.num 7) []]) false))].get? 0 =
      some (NetProtocol.mk (some (Ospfv2Node.mk none
        (some [OcArea.mk (AreaVal.num 7) []]) false)))) ∧
    (get_ospfv2_area
        [NetProtocol.mk (some (Ospfv2Node.mk none
          (some [OcArea.mk (AreaVal.num 7) []]) false))] 0 =
      .ok ([NetProtocol.mk (some (Ospfv2Node.mk none (some []) false))],
        [])) :=
  ⟨by decide,
   (c2_area_get_or_create_resets.1 [{}] 0 (by decide)).2,
   by decide,
   c2_area_get_or_create_resets.2.2.2⟩

/-! ## Claim C3: inter-area propagation policy emission -/

/-- The policy an area would yield, if its filter-list qualifies. -/
def polOf (area : NedArea) : Option IAPolicy :=
  match area.filterList with
  | some fl =>
    if fl.length = 1 then
      some { srcArea := 0, dstArea := area.id,
             importPolicy := [(fl.getD 0 { pfx := "" }).pfx] }
    else none
  | none => none

theorem set_inter_toList (area : NedArea) (pols : List IAPolicy) :
    set_inter_area_propagation_policy area pols = pols ++ (polOf area).toList := by
  rw [set_inter_area_propagation_policy, polOf]
  cases area.filterList with
  | none => simp
  | some fl =>
    by_cases h : fl.length = 1 <;> simp [h]

theorem exbind_ok {ε α β : Type _} (a : α) (f : α → Except ε β) :
    (Except.ok a >>= f : Except ε β) = f a := rfl

theorem policyStep_true (pols : List IAPolicy) (a : NedArea) {n : Int}
    (hn : pyIntOfVal a.id = .ok n) :
    policyStep true pols a =
      .ok (if n ≠ 0 then pols ++ (polOf a).toList else pols) := by
  rw [policyStep, if_pos rfl]
  show (pyIntOfVal a.id >>= fun n => _) = _
  rw [hn, exbind_ok]
  by_cases h0 : n ≠ 0
  · simp only [if_pos h0, set_inter_toList]
    rfl
  · simp only [if_neg h0]
    rfl

theorem policyStep_false (pols : List IAPolicy) (a : NedArea) :
    policyStep false pols a = .ok pols := rfl

theorem check_areas_policies_fold (al : List NedArea)
    (hids : ∀ a ∈ al, ∃ n, pyIntOfVal a.id = .ok n) (acc : List IAPolicy) :
    al.foldlM (policyStep true) acc = .ok (acc ++ al.filterMap (fun area =>
      if ((pyIntOfVal area.id).toOption.getD 0) ≠ 0 then polOf area else none)) := by
  induction al generalizing acc with
  | nil => simp; rfl
  | cons a al ih =>
    obtain ⟨n, hn⟩ := hids a (List.mem_cons_self _ _)
    have hrest : ∀ a2 ∈ al, ∃ n2, pyIntOfVal a2.id = .ok n2 :=
      fun a2 h2 => hids a2 (List.mem_cons_of_mem _ h2)
    rw [List.foldlM_cons, policyStep_true acc a hn, exbind_ok, ih hrest]
    by_cases h0 : n ≠ 0
    · rw [if_pos h0]
      cases hpol : polOf a <;>
        simp [List.filterMap_cons, hn, h0, hpol, List.append_assoc, Except.toOption]
    · rw [if_neg h0]
      simp only [not_not] at h0
      subst h0
      simp [List.filterMap_cons, hn, Except.toOption]

theorem check_areas_policies_fold_false (al : List NedArea) (acc : List IAPolicy) :
    al.foldlM (policyStep false) acc = .ok acc := by
  induction al generalizing acc with
  | nil => simp; rfl
  | cons a al ih => rw [List.foldlM_cons, policyStep_false, exbind_ok, ih]

/-- C3 (amended): `check_areas` emits an inter-area propagation policy
(src-area 0, dst-area the area's id, import-policy the filter-list entry)
for an area exactly when area 0 is present among the discovered areas,
`int(area["id"])` is nonzero, *and* the area carries a filter-list with
exactly one entry — provided every discovered area id converts with `int`. -/
theorem c3_policy_emission (ospf : OspfProc)
    (hids : ∀ a ∈ populate_area_list ospf, ∃ n, pyIntOfVal a.id = .ok n) :
    check_areas_policies ospf = .ok (specPolicies ospf) := by
  rw [check_areas_policies, specPolicies]
  by_cases h0 : check_for_area_0 (populate_area_list ospf) = true
  · rw [h0, if_pos rfl, check_areas_policies_fold (populate_area_list ospf) hids []]
    rw [List.nil_append]
    congr 1
    apply List.filterMap_congr
    intro a ha
    rw [polOf]
    cases hfl : a.filterList with
    | none => simp
    | some fl =>
      by_cases hl : fl.length = 1 <;>
        by_cases hnz : ((pyIntOfVal a.id).toOption.getD 0) ≠ 0 <;>
          simp [hl, hnz, polOf, hfl]
  · simp only [Bool.not_eq_true] at h0
    rw [h0, if_neg (by simp), check_areas_policies_fold_false]

/-- C3 counterexample: with NED areas 0 and 1 where area 1 has no
filter-list, area 0 is present and the destination id 1 is nonzero, yet no
policy is emitted — refuting the claimed "exactly when". -/
theorem c3_counterexample :
    check_for_area_0 (populate_area_list
      { areas := some [{ id := .num 0 }, { id := .num 1 }] }) = true ∧
    (AreaVal.num 1) ∈ (populate_area_list
      { areas := some [{ id := .num 0 }, { id := .num 1 }] }).map (fun a => a.id) ∧
    check_areas_policies
      { areas := some [{ id := .num 0 }, { id := .num 1 }] } = .ok [] := by
  decide

/-- C3 witness: with a single-entry filter-list on area 1 the policy is
emitted, matching `specPolicies`. -/
theorem c3_witness :
    check_areas_policies
      { areas := some [{ id := .num 0 },
                       { id := .num 1, filterList := some [{ pfx := "PL" }] }] } =
      .ok (specPolicies
        { areas := some [{ id := .num 0 },
                         { id := .num 1, filterList := some [{ pfx := "PL" }] }] }) :=
  c3_policy_emission _ (by
    intro a ha
    have hpl : populate_area_list
        { areas := some [{ id := .num 0 },
                         { id := .num 1, filterList := some [{ pfx := "PL" }] }] } =
        [{ id := .num 0 }, { id := .num 1, filterList := some [{ pfx := "PL" }] }] := by
      decide
    rw [hpl] at ha
    rcases List.mem_cons.mp ha with rfl | ha2
    · exact ⟨0, rfl⟩
    · rcases List.mem_cons.mp ha2 with rfl | h3
      · exact ⟨1, rfl⟩
      · exact absurd h3 (List.not_mem_nil a))

/-! ## Claim C4: leftover discipline of `set_passive` and `set_timers_lsa` -/

/-- C4 counterexample: with a `passive-interface` section that has no
`interface` list, `set_passive` writes nothing into the destination config
yet deletes the whole leftover `passive-interface` section — leftover data is
removed although it was never translated. -/
theorem c4_counterexample :
    set_passive { passiveInterface := some {} } { passiveInterface := some {} } {} "Gi1" =
      ({ passiveInterface := none }, {}) ∧
    ({ passiveInterface := some {} } : OspfPassive) ≠ { passiveInterface := none } := by
  decide

theorem delLsa_ok {leftover l2 : OspfWithTimers} (h : delLsa leftover = .ok l2) :
    (l2.timers.bind (fun t => t.throttle)).bind (fun th => th.lsa) = none := by
  rw [delLsa] at h
  cases ht : leftover.timers with
  | none => rw [ht] at h; exact absurd h (by simp)
  | some t =>
    rw [ht] at h
    dsimp only at h
    cases hth : t.throttle with
    | none => rw [hth] at h; exact absurd h (by simp)
    | some th =>
      rw [hth] at h
      dsimp only at h
      cases hl : th.lsa with
      | none => rw [hl] at h; exact absurd h (by simp)
      | some x =>
        rw [hl] at h
        simp only [Except.ok.injEq] at h
        rw [← h]
        rfl

/-- C4 (amended): `set_timers_lsa` follows translate-then-delete for a fully
specified LSA throttle group (the three intervals are placed in the
destination, only then is the leftover group deleted) and raises without
deleting when the group is partially specified — but it also deletes the
leftover group when the group carries none of the three fields, and
`set_passive` deletes the leftover `passive-interface` section whenever it is
present, translated or not, so the claimed invariant holds only up to those
two deletions of untranslated data. -/
theorem c4_leftover_discipline :
    (∀ (ospf leftover : OspfWithTimers) (lsa : LsaTimers),
      (ospf.timers.bind (fun t => t.throttle)).bind (fun th => th.lsa) = some lsa →
      (lsa.startInterval.isSome ∧ lsa.holdInterval.isSome ∧ lsa.maxInterval.isSome →
        ∀ l cfg?, set_timers_lsa ospf leftover = .ok (l, cfg?) →
          cfg? = some { initialDelay := lsa.startInterval.getD 0,
                        maximumDelay := lsa.maxInterval.getD 0,
                        holdTime := lsa.holdInterval.getD 0 } ∧
          (l.timers.bind (fun t => t.throttle)).bind (fun th => th.lsa) = none) ∧
      ((lsa.startInterval.isSome ∨ lsa.holdInterval.isSome ∨ lsa.maxInterval.isSome) →
        ¬ (lsa.startInterval.isSome ∧ lsa.holdInterval.isSome ∧ lsa.maxInterval.isSome) →
        ∃ msg, set_timers_lsa ospf leftover = .error msg) ∧
      (lsa.startInterval = none → lsa.holdInterval = none → lsa.maxInterval = none →
        ∀ l cfg?, set_timers_lsa ospf leftover = .ok (l, cfg?) → cfg? = none ∧
          (l.timers.bind (fun t => t.throttle)).bind (fun th => th.lsa) = none)) ∧
    (∀ (ospf leftover : OspfWithTimers),
      (ospf.timers.bind (fun t => t.throttle)).bind (fun th => th.lsa) = none →
      set_timers_lsa ospf leftover = .ok (leftover, none)) ∧
    (∀ (ospf ospf_leftover : OspfPassive) (cfg : IntfConfig) (intfName : String),
      ospf_leftover.passiveInterface.isSome →
      (set_passive ospf ospf_leftover cfg intfName).1.passiveInterface = none) := by
  refine ⟨?_, ?_, ?_⟩
  · intro ospf leftover lsa hlsa
    refine ⟨?_, ?_, ?_⟩
    · intro hall l cfg? hres
      rw [set_timers_lsa, hlsa] at hres
      dsimp only at hres
      rw [if_pos (Or.inl hall.1), if_pos hall] at hres
      cases hdel : delLsa leftover with
      | error msg =>
        rw [hdel] at hres
        exact absurd hres (by simp [bind, Except.bind])
      | ok l2 =>
        rw [hdel] at hres
        simp only [bind, Except.bind, Except.ok.injEq, Prod.mk.injEq] at hres
        obtain ⟨rfl, rfl⟩ := hres
        exact ⟨rfl, delLsa_ok hdel⟩
    · intro hsome hnotall
      rw [set_timers_lsa, hlsa]
      dsimp only
      rw [if_pos hsome, if_neg hnotall]
      exact ⟨_, rfl⟩
    · intro h1 h2 h3 l cfg? hres
      rw [set_timers_lsa, hlsa] at hres
      dsimp only at hres
      rw [if_neg (by simp [h1, h2, h3])] at hres
      cases hdel : delLsa leftover with
      | error msg =>
        rw [hdel] at hres
        exact absurd hres (by simp [bind, Except.bind])
      | ok l2 =>
        rw [hdel] at hres
        simp only [bind, Except.bind, Except.ok.injEq, Prod.mk.injEq] at hres
        obtain ⟨rfl, rfl⟩ := hres
        exact ⟨rfl, delLsa_ok hdel⟩
  · intro ospf leftover hnone
    rw [set_timers_lsa, hnone]
  · intro ospf ospf_leftover cfg intfName hsome
    rw [set_passive]
    simp [hsome]

/-- C4 witness: a fully specified LSA throttle group is placed in the
destination and the leftover group is deleted; a group-less process leaves
the leftover untouched; a present leftover `passive-interface` is deleted. -/
theorem c4_witness :
    ((some { initialDelay := (5 : Int), maximumDelay := 5000, holdTime := 1000 } :
        Option LsaGenConfig) = some { initialDelay := 5, maximumDelay := 5000, holdTime := 1000 } ∧
      ((({ timers := some { throttle := some { lsa := none } } } : OspfWithTimers)).timers.bind
        (fun t => t.throttle)).bind (fun th => th.lsa) = none) ∧
    set_timers_lsa {} {} = .ok ({}, none) ∧
    (set_passive {} { passiveInterface := some { interface := some ["Gi1"] } } {} "Gi1").1.passiveInterface =
      none := by
  refine ⟨?_, ?_, ?_⟩
  · exact (c4_leftover_discipline.1
      { timers := some { throttle := some { lsa := some ({ startInterval := some 5, holdInterval := some 1000, maxInterval := some 5000 } : LsaTimers) } } }
      { timers := some { throttle := some { lsa := some ({ startInterval := some 5, holdInterval := some 1000, maxInterval := some 5000 } : LsaTimers) } } }
      { startInterval := some 5, holdInterval := some 1000, maxInterval := some 5000 }
      rfl).1 (by decide) { timers := some { throttle := some { lsa := none } } }
      (some { initialDelay := 5, maximumDelay := 5000, holdTime := 1000 }) (by decide)
  · exact c4_leftover_discipline.2.1 {} {} rfl
  · exact c4_leftover_discipline.2.2 {} { passiveInterface := some { interface := some ["Gi1"] } }
      {} "Gi1" (by decide)

/-! ## Claim C10: a statement without a mask (or ip) raises -/

theorem get_binary_str_empty :
    get_binary_str "" = .error "ValueError: invalid literal for int with base 10" := by
  rfl

theorem binary_merge_empty_mask (ip : String) :
    ∃ msg, binary_merge ip "" = .error msg := by
  rw [binary_merge]
  cases h : get_binary_str ip with
  | error msg => exact ⟨msg, by simp [bind, Except.bind, h]⟩
  | ok b1 =>
    exact ⟨"ValueError: invalid literal for int with base 10",
      by simp [bind, Except.bind, h, get_binary_str_empty]⟩

theorem binary_merge_empty_ip (m : String) :
    ∃ msg, binary_merge "" m = .error msg :=
  ⟨"ValueError: invalid literal for int with base 10",
    by simp [binary_merge, bind, Except.bind, get_binary_str_empty]⟩

theorem insertStmtM_mem {x : NetStmt} {l l2 : List NetStmt}
    (h : insertStmtM x l = .ok l2) : ∀ y, y ∈ l2 ↔ y = x ∨ y ∈ l := by
  induction l generalizing l2 with
  | nil =>
    rw [insertStmtM] at h
    cases h
    simp
  | cons z zs ih =>
    rw [insertStmtM] at h
    cases hc : sort_by_mask x z with
    | error msg => rw [hc] at h; exact absurd h (by simp [bind, Except.bind])
    | ok c =>
      rw [hc] at h
      simp only [bind, Except.bind] at h
      by_cases hle : c ≤ 0
      · rw [if_pos hle] at h
        cases h
        intro y
        simp [or_comm, or_left_comm]
      · rw [if_neg hle] at h
        cases hr : insertStmtM x zs with
        | error msg => rw [hr] at h; exact absurd h (by simp)
        | ok r =>
          rw [hr] at h
          simp only [Except.ok.injEq] at h
          subst h
          intro y
          simp only [List.mem_cons, ih hr y]
          tauto

theorem sortStmts_mem {l l2 : List NetStmt} (h : sortStmts l = .ok l2) :
    ∀ x ∈ l, x ∈ l2 := by
  induction l generalizing l2 with
  | nil => simp
  | cons z zs ih =>
    rw [sortStmts] at h
    cases hr : sortStmts zs with
    | error msg => rw [hr] at h; exact absurd h (by simp [bind, Except.bind])
    | ok r =>
      rw [hr] at h
      simp only [bind, Except.bind] at h
      intro x hx
      rcases List.mem_cons.mp hx with rfl | hx2
      · exact (insertStmtM_mem h x).mpr (Or.inl rfl)
      · exact (insertStmtM_mem h x).mpr (Or.inr (ih hr x hx2))

theorem foldlM_error_of_mem {α β : Type _} (f : β → α → Except String β)
    {l : List α} {x : α} (hx : x ∈ l)
    (hf : ∀ b, ∃ msg, f b x = .error msg) :
    ∀ b0, ∃ msg, l.foldlM f b0 = .error msg := by
  induction l with
  | nil => exact absurd hx (List.not_mem_nil x)
  | cons y ys ih =>
    intro b0
    rcases List.mem_cons.mp hx with rfl | hx2
    · obtain ⟨msg, hmsg⟩ := hf b0
      exact ⟨msg, by simp [List.foldlM_cons, hmsg, bind, Except.bind]⟩
    · cases hy : f b0 y with
      | error msg => exact ⟨msg, by simp [List.foldlM_cons, hy, bind, Except.bind]⟩
      | ok b1 =>
        obtain ⟨msg, hmsg⟩ := ih hx2 b1
        exact ⟨msg, by simp [List.foldlM_cons, hy, bind, Except.bind, hmsg]⟩

/-- C10: a network statement lacking its `mask` key (or its `ip` key) makes
`get_interfaces_by_area` raise for any interface list: the statement's own
`binary_merge` calls `int` on an empty-string octet.  Such a statement is
never applied as a lowest-priority match — there is no result at all. -/
theorem c10_missing_mask_raises (stmts : List NetStmt) (intfs : List VrfIntf)
    (s : NetStmt) (hs : s ∈ stmts) (hbad : s.mask = none ∨ s.ip = none) :
    ∃ msg, get_interfaces_by_area stmts intfs = .error msg := by
  rw [get_interfaces_by_area]
  cases hsort : sortStmts stmts with
  | error msg => exact ⟨msg, by simp [bind, Except.bind]⟩
  | ok sorted =>
    have hmem : s ∈ sorted := sortStmts_mem hsort s hs
    have hstep : ∀ acc : List String × List (AreaVal × List VrfIntf),
        ∃ msg,
          (do
            let stmtMask := s.mask.getD ""
            let areaId := s.area.getD (.str "0")
            let mergedStmt ← binary_merge (s.ip.getD "") (s.mask.getD "")
            intfs.foldlM
              (fun (acc2 : List String × List (AreaVal × List VrfIntf)) intf => do
                if acc2.1.contains (fullName intf) then pure acc2
                else do
                  let mergedIntf ← binary_merge intf.primaryAddress stmtMask
                  if mergedStmt = mergedIntf then
                    pure (fullName intf :: acc2.1, addToArea acc2.2 areaId intf)
                  else pure acc2)
              acc : Except String (List String × List (AreaVal × List VrfIntf))) =
            .error msg := by
      intro acc
      have hmerge : ∃ msg,
          binary_merge (s.ip.getD "") (s.mask.getD "") = .error msg := by
        rcases hbad with hm | hi
        · rw [hm]
          exact binary_merge_empty_mask _
        · rw [hi]
          exact binary_merge_empty_ip _
      obtain ⟨msg, hmsg⟩ := hmerge
      exact ⟨msg, by simp [bind, Except.bind, hmsg]⟩
    obtain ⟨msg, hmsg⟩ :=
      foldlM_error_of_mem
        (fun (acc : List String × List (AreaVal × List VrfIntf)) stmt => do
          let stmtMask := stmt.mask.getD ""
          let areaId := stmt.area.getD (.str "0")
          let mergedStmt ← binary_merge (stmt.ip.getD "") (stmt.mask.getD "")
          intfs.foldlM
            (fun (acc2 : List String × List (AreaVal × List VrfIntf)) intf => do
              if acc2.1.contains (fullName intf) then pure acc2
              else do
                let mergedIntf ← binary_merge intf.primaryAddress stmtMask
                if mergedStmt = mergedIntf then
                  pure (fullName intf :: acc2.1, addToArea acc2.2 areaId intf)
                else pure acc2)
            acc)
        hmem hstep (([] : List String), ([] : List (AreaVal × List VrfIntf)))
    refine ⟨msg, ?_⟩
    simp only [bind, Except.bind] at hmsg ⊢
    rw [hmsg]

/-- C10 witness: a single statement with an ip but no mask raises even with a
nonempty interface list. -/
theorem c10_witness :
    ({ ip := some "10.0.0.0" } : NetStmt) ∈ [({ ip := some "10.0.0.0" } : NetStmt)] ∧
    (({ ip := some "10.0.0.0" } : NetStmt).mask = none ∨
      ({ ip := some "10.0.0.0" } : NetStmt).ip = none) ∧
    ∃ msg, get_interfaces_by_area [{ ip := some "10.0.0.0" }]
      [{ type := "GigabitEthernet", name := "1", primaryAddress := "10.0.0.5" }] =
        .error msg :=
  ⟨by decide, by decide,
    c10_missing_mask_raises _ _ { ip := some "10.0.0.0" } (by decide) (by decide)⟩

/-! ## Claim C5: `sort_by_mask` ordering, missing-mask placement, stability -/

theorem lexCmp_self (a : List Int) : lexCmp a a = 0 := by
  induction a with
  | nil => rfl
  | cons x xs ih => simp [lexCmp, ih]

theorem cmpKey_self (k : Option (List Int)) : cmpKey k k = 0 := by
  cases k with
  | none => rfl
  | some a => simp [cmpKey, lexCmp_self]

theorem lexCmp_antisymm (a b : List Int) : lexCmp b a = -lexCmp a b := by
  induction a generalizing b with
  | nil => cases b <;> simp [lexCmp]
  | cons x xs ih =>
    cases b with
    | nil => simp [lexCmp]
    | cons y ys =>
      by_cases h : x = y
      · subst h
        simp [lexCmp, ih]
      · rw [lexCmp, lexCmp, if_neg h, if_neg (fun hc => h hc.symm)]
        omega

theorem cmpKey_antisymm (k1 k2 : Option (List Int)) : cmpKey k2 k1 = -cmpKey k1 k2 := by
  cases k1 with
  | none =>
    cases k2 with
    | none => simp [cmpKey]
    | some b => simp [cmpKey]
  | some a =>
    cases k2 with
    | none => simp [cmpKey]
    | some b =>
      simp only [cmpKey]
      exact lexCmp_antisymm a b

theorem lexCmp_trans : ∀ {a b c : List Int}, a.length = b.length →
    b.length = c.length → lexCmp a b ≤ 0 → lexCmp b c ≤ 0 → lexCmp a c ≤ 0 := by
  intro a
  induction a with
  | nil =>
    intro b c hab hbc
    cases b <;> cases c <;> simp [lexCmp] at *
  | cons x xs ih =>
    intro b c hab hbc
    cases b with
    | nil => simp at hab
    | cons y ys =>
      cases c with
      | nil => simp at hbc
      | cons z zs =>
        simp only [List.length_cons, Nat.add_right_cancel_iff] at hab hbc
        intro h1 h2
        by_cases hxy : x = y <;> by_cases hyz : y = z
        · subst hxy; subst hyz
          rw [lexCmp, if_pos rfl]
          rw [lexCmp, if_pos rfl] at h1
          rw [lexCmp, if_pos rfl] at h2
          exact ih hab hbc h1 h2
        · subst hxy
          rw [lexCmp, if_neg hyz] at h2
          rw [lexCmp, if_neg hyz]
          exact h2
        · subst hyz
          rw [lexCmp, if_neg hxy] at h1
          rw [lexCmp, if_neg hxy]
          exact h1
        · rw [lexCmp, if_neg hxy] at h1
          rw [lexCmp, if_neg hyz] at h2
          have hxz : x ≠ z := by omega
          rw [lexCmp, if_neg hxz]
          omega

/-- Keys produced by valid statements: `none` or four nonnegative octets. -/
theorem maskKey_valid {s : NetStmt} (h : validMask s = true) :
    maskKey s = none ∨
      ∃ k, maskKey s = some k ∧ k.length = 4 ∧ ∀ v ∈ k, 0 ≤ v := by
  rw [validMask] at h
  rw [maskKey]
  by_cases hf : pyFalsyStr s.mask = true
  · exact Or.inl (by simp [hf])
  · right
    simp only [hf, Bool.false_or, Bool.and_eq_true, beq_iff_eq, List.all_eq_true] at h
    rw [if_neg (by simp [hf])]
    refine ⟨_, rfl, by simp [h.1], ?_⟩
    intro v hv
    obtain ⟨t, ht, hvt⟩ := List.mem_map.mp hv
    have := h.2 t ht
    rw [validMaskOctet] at this
    cases hpi : pyInt t with
    | none => rw [hpi] at this; exact absurd this (by simp)
    | some n =>
      rw [hpi] at this
      simp only [decide_eq_true_eq] at this
      rw [← hvt, hpi]
      simpa using this

theorem cmpKey_trans {s1 s2 s3 : NetStmt}
    (h1 : validMask s1 = true) (h2 : validMask s2 = true) (h3 : validMask s3 = true)
    (hab : cmpKey (maskKey s1) (maskKey s2) ≤ 0)
    (hbc : cmpKey (maskKey s2) (maskKey s3) ≤ 0) :
    cmpKey (maskKey s1) (maskKey s3) ≤ 0 := by
  rcases maskKey_valid h1 with hk1 | ⟨k1, hk1, hl1, _⟩ <;>
    rcases maskKey_valid h2 with hk2 | ⟨k2, hk2, hl2, _⟩ <;>
      rcases maskKey_valid h3 with hk3 | ⟨k3, hk3, hl3, _⟩ <;>
        rw [hk1, hk2] at hab <;> rw [hk2, hk3] at hbc <;> rw [hk1, hk3] <;>
          simp [cmpKey] at *
  exact lexCmp_trans (hl1.trans hl2.symm) (hl2.trans hl3.symm) hab hbc

theorem cmpKey_total {s1 s2 : NetStmt}
    (h : ¬ cmpKey (maskKey s1) (maskKey s2) ≤ 0) :
    cmpKey (maskKey s2) (maskKey s1) ≤ 0 := by
  rw [cmpKey_antisymm]
  omega

theorem cmpOctets_ok {o1 o2 : List String}
    (h1 : ∀ t ∈ o1, validMaskOctet t = true) (h2 : ∀ t ∈ o2, validMaskOctet t = true) :
    cmpOctets o1 o2 =
      .ok (lexCmp (o1.map (fun t => (pyInt t).getD 0)) (o2.map (fun t => (pyInt t).getD 0))) := by
  induction o1 generalizing o2 with
  | nil =>
    cases o2 with
    | nil => rfl
    | cons b bs => rfl
  | cons a as ih =>
    cases o2 with
    | nil => rfl
    | cons b bs =>
      have ha := h1 a (List.mem_cons_self _ _)
      have hb := h2 b (List.mem_cons_self _ _)
      rw [validMaskOctet] at ha hb
      cases hia : pyInt a with
      | none => rw [hia] at ha; exact absurd ha (by simp)
      | some ia =>
        cases hib : pyInt b with
        | none => rw [hib] at hb; exact absurd hb (by simp)
        | some ib =>
          rw [cmpOctets, hia, hib]
          simp only [List.map_cons, hia, hib, Option.getD_some, lexCmp]
          by_cases he : ia = ib
          · rw [if_pos he, if_pos he]
            exact ih (fun t ht => h1 t (List.mem_cons_of_mem _ ht))
              (fun t ht => h2 t (List.mem_cons_of_mem _ ht))
          · rw [if_neg he, if_neg he]

theorem sort_by_mask_ok {s1 s2 : NetStmt}
    (h1 : validMask s1 = true) (h2 : validMask s2 = true) :
    sort_by_mask s1 s2 = .ok (cmpKey (maskKey s1) (maskKey s2)) := by
  rw [sort_by_mask, maskKey, maskKey]
  by_cases hf1 : pyFalsyStr s1.mask = true <;> by_cases hf2 : pyFalsyStr s2.mask = true
  · rw [if_pos ⟨hf1, hf2⟩]
    simp [hf1, hf2, cmpKey]
  · rw [if_neg (by simp [hf2]), if_pos hf1]
    simp [hf1, hf2, cmpKey]
  · rw [if_neg (by simp [hf1]), if_neg hf1, if_pos hf2]
    simp [hf1, hf2, cmpKey]
  · rw [validMask] at h1 h2
    simp only [hf1, hf2, Bool.false_or, Bool.and_eq_true, beq_iff_eq,
      List.all_eq_true] at h1 h2
    rw [if_neg (by simp [hf1]), if_neg hf1, if_neg hf2,
      if_neg (by simp [h1.1, h2.1]), if_neg (by simp [hf1]), if_neg (by simp [hf2])]
    simp only [cmpKey]
    exact cmpOctets_ok h1.2 h2.2

theorem mem_insertT {y x : NetStmt} {l : List NetStmt} :
    y ∈ insertT x l ↔ y = x ∨ y ∈ l := by
  induction l with
  | nil => simp [insertT]
  | cons z zs ih =>
    rw [insertT]
    by_cases hc : cmpKey (maskKey x) (maskKey z) ≤ 0
    · rw [if_pos hc]
      simp
    · rw [if_neg hc]
      simp only [List.mem_cons, ih]
      tauto

theorem mem_isortT {y : NetStmt} {l : List NetStmt} : y ∈ isortT l ↔ y ∈ l := by
  induction l with
  | nil => simp [isortT]
  | cons z zs ih =>
    rw [isortT]
    simp only [mem_insertT, ih, List.mem_cons]

theorem insertT_perm (x : NetStmt) (l : List NetStmt) : List.Perm (insertT x l) (x :: l) := by
  induction l with
  | nil => rfl
  | cons z zs ih =>
    rw [insertT]
    by_cases hc : cmpKey (maskKey x) (maskKey z) ≤ 0
    · rw [if_pos hc]
    · rw [if_neg hc]
      exact (ih.cons z).trans (List.Perm.swap x z zs)

theorem isortT_perm (l : List NetStmt) : List.Perm (isortT l) l := by
  induction l with
  | nil => rfl
  | cons z zs ih => exact (insertT_perm z (isortT zs)).trans (ih.cons z)

theorem insertStmtM_eq {x : NetStmt} {l : List NetStmt}
    (hx : validMask x = true) (hl : ∀ y ∈ l, validMask y = true) :
    insertStmtM x l = .ok (insertT x l) := by
  induction l with
  | nil => rfl
  | cons z zs ih =>
    rw [insertStmtM, sort_by_mask_ok hx (hl z (List.mem_cons_self _ _)), exbind_ok,
      insertT]
    by_cases hc : cmpKey (maskKey x) (maskKey z) ≤ 0
    · rw [if_pos hc, if_pos hc]
    · rw [if_neg hc, if_neg hc, ih (fun y hy => hl y (List.mem_cons_of_mem _ hy)),
        exbind_ok]

theorem sortStmts_eq {l : List NetStmt} (hl : ∀ y ∈ l, validMask y = true) :
    sortStmts l = .ok (isortT l) := by
  induction l with
  | nil => rfl
  | cons z zs ih =>
    rw [sortStmts, ih (fun y hy => hl y (List.mem_cons_of_mem _ hy)), exbind_ok, isortT]
    exact insertStmtM_eq (hl z (List.mem_cons_self _ _))
      (fun y hy => hl y (List.mem_cons_of_mem _ (mem_isortT.mp hy)))

theorem insertT_pairwise {x : NetStmt} {l : List NetStmt}
    (hx : validMask x = true) (hl : ∀ y ∈ l, validMask y = true)
    (hp : l.Pairwise (fun a b => cmpKey (maskKey a) (maskKey b) ≤ 0)) :
    (insertT x l).Pairwise (fun a b => cmpKey (maskKey a) (maskKey b) ≤ 0) := by
  induction l with
  | nil => simp [insertT]
  | cons z zs ih =>
    rw [insertT]
    obtain ⟨hz, hzs⟩ := List.pairwise_cons.mp hp
    by_cases hc : cmpKey (maskKey x) (maskKey z) ≤ 0
    · rw [if_pos hc]
      refine List.pairwise_cons.mpr ⟨?_, hp⟩
      intro b hb
      rcases List.mem_cons.mp hb with rfl | hb2
      · exact hc
      · exact cmpKey_trans hx (hl z (List.mem_cons_self _ _))
          (hl b (List.mem_cons_of_mem _ hb2)) hc (hz b hb2)
    · rw [if_neg hc]
      refine List.pairwise_cons.mpr ⟨?_, ?_⟩
      · intro b hb
        rcases mem_insertT.mp hb with rfl | hb2
        · exact cmpKey_total hc
        · exact hz b hb2
      · exact ih (fun y hy => hl y (List.mem_cons_of_mem _ hy)) hzs

theorem isortT_pairwise {l : List NetStmt} (hl : ∀ y ∈ l, validMask y = true) :
    (isortT l).Pairwise (fun a b => cmpKey (maskKey a) (maskKey b) ≤ 0) := by
  induction l with
  | nil => simp [isortT]
  | cons z zs ih =>
    rw [isortT]
    exact insertT_pairwise (hl z (List.mem_cons_self _ _))
      (fun y hy => hl y (List.mem_cons_of_mem _ (mem_isortT.mp hy)))
      (ih (fun y hy => hl y (List.mem_cons_of_mem _ hy)))

theorem filter_insertT (x : NetStmt) (l : List NetStmt) (k : Option (List Int)) :
    (insertT x l).filter (fun s => maskKey s == k) =
      ((if maskKey x == k then [x] else []) ++ l.filter (fun s => maskKey s == k)) := by
  induction l with
  | nil =>
    rw [insertT]
    by_cases hk : maskKey x == k <;> simp [hk]
  | cons z zs ih =>
    rw [insertT]
    by_cases hc : cmpKey (maskKey x) (maskKey z) ≤ 0
    · rw [if_pos hc]
      by_cases hk : maskKey x == k <;> simp [hk, List.filter_cons]
    · rw [if_neg hc]
      rw [List.filter_cons, List.filter_cons, ih]
      by_cases hzk : maskKey z == k
      · have hxk : ¬ (maskKey x == k) := by
          intro hxk
          apply hc
          rw [beq_iff_eq] at hxk hzk
          rw [hxk, ← hzk, cmpKey_self]
        simp [hzk, hxk]
      · simp [hzk]

theorem filter_isortT (l : List NetStmt) (k : Option (List Int)) :
    (isortT l).filter (fun s => maskKey s == k) = l.filter (fun s => maskKey s == k) := by
  induction l with
  | nil => rfl
  | cons z zs ih =>
    rw [isortT, filter_insertT, ih, List.filter_cons]
    by_cases hk : maskKey z == k <;> simp [hk]

theorem lexCmp_zero : ∀ {kt : List Int} {n : Nat}, kt.length = n →
    (∀ v ∈ kt, 0 ≤ v) → lexCmp kt (List.replicate n 0) ≤ 0 →
    kt = List.replicate n 0 := by
  intro kt
  induction kt with
  | nil =>
    intro n hlen _ _
    rw [← hlen]
    rfl
  | cons x xs ih =>
    intro n hlen hnn hle
    cases n with
    | zero => simp at hlen
    | succ m =>
      simp only [List.length_cons, Nat.add_right_cancel_iff] at hlen
      rw [List.replicate_succ] at hle ⊢
      by_cases hx : x = (0 : Int)
      · subst hx
        rw [lexCmp, if_pos rfl] at hle
        rw [ih hlen (fun v hv => hnn v (List.mem_cons_of_mem _ hv)) hle]
      · rw [lexCmp, if_neg hx] at hle
        have := hnn x (List.mem_cons_self _ _)
        omega

/-- C5: sorting network statements with `sort_by_mask` succeeds on
well-formed masks and produces a permutation that is ordered by the octet
key (so the all-zero mask comes first and numerically larger masks later),
keeps comparator-equal masks in input order (stability, phrased as filter
preservation per key), puts every falsy-mask statement after all mask-bearing
ones, and admits only all-zero masks before an all-zero mask. -/
theorem c5_sort_by_mask_spec (l : List NetStmt)
    (hv : ∀ s ∈ l, validMask s = true) :
    ∃ l2, sortStmts l = .ok l2 ∧
      List.Perm l2 l ∧
      l2.Pairwise (fun a b => cmpKey (maskKey a) (maskKey b) ≤ 0) ∧
      (∀ k, l2.filter (fun s => maskKey s == k) = l.filter (fun s => maskKey s == k)) ∧
      (∀ p s q, l2 = p ++ s :: q → pyFalsyStr s.mask = true →
        ∀ t ∈ q, pyFalsyStr t.mask = true) ∧
      (∀ p s q, l2 = p ++ s :: q → maskKey s = some [0, 0, 0, 0] →
        ∀ t ∈ p, maskKey t = some [0, 0, 0, 0]) := by
  refine ⟨isortT l, sortStmts_eq hv, isortT_perm l, isortT_pairwise hv,
    filter_isortT l, ?_, ?_⟩
  · intro p s q heq hfalsy t ht
    have hpw := isortT_pairwise hv
    rw [heq] at hpw
    have hst : cmpKey (maskKey s) (maskKey t) ≤ 0 :=
      (List.pairwise_cons.mp (List.pairwise_append.mp hpw).2.1).1 t ht
    have hks : maskKey s = none := by
      rw [maskKey, if_pos hfalsy]
    rw [hks] at hst
    cases hkt : maskKey t with
    | none =>
      rw [maskKey] at hkt
      by_cases hft : pyFalsyStr t.mask = true
      · exact hft
      · rw [if_neg (by simp [hft])] at hkt
        exact absurd hkt (by simp)
    | some kt =>
      rw [hkt] at hst
      simp [cmpKey] at hst
  · intro p s q heq hzero t ht
    have hpw := isortT_pairwise hv
    rw [heq] at hpw
    have hts : cmpKey (maskKey t) (maskKey s) ≤ 0 :=
      (List.pairwise_append.mp hpw).2.2 t ht s (List.mem_cons_self _ _)
    have htv : validMask t = true := by
      apply hv
      have : t ∈ isortT l := by
        rw [heq]
        exact List.mem_append.mpr (Or.inl ht)
      exact mem_isortT.mp this
    rcases maskKey_valid htv with hkt | ⟨kt, hkt, hlen, hnn⟩
    · rw [hkt, hzero] at hts
      simp [cmpKey] at hts
    · rw [hkt, hzero] at hts
      simp only [cmpKey] at hts
      rw [hkt]
      have : kt = List.replicate 4 0 := lexCmp_zero hlen hnn (by simpa using hts)
      rw [this]
      rfl

/-- C5 witness: the more specific `0.0.0.0` mask sorts first, `0.0.0.255`
second, and a statement with no mask last; equal positions are preserved. -/
theorem c5_witness :
    ∃ l2,
      sortStmts
        [{ ip := some "10.0.0.0", mask := some "0.0.0.255", area := some (.num 1) },
         { ip := some "10.0.0.0" },
         { ip := some "10.0.0.0", mask := some "0.0.0.0", area := some (.num 0) }] = .ok l2 ∧
      List.Perm l2
        [{ ip := some "10.0.0.0", mask := some "0.0.0.255", area := some (.num 1) },
         { ip := some "10.0.0.0" },
         { ip := some "10.0.0.0", mask := some "0.0.0.0", area := some (.num 0) }] ∧
      l2.Pairwise (fun a b => cmpKey (maskKey a) (maskKey b) ≤ 0) ∧
      (∀ k, l2.filter (fun s => maskKey s == k) =
        ([{ ip := some "10.0.0.0", mask := some "0.0.0.255", area := some (.num 1) },
          { ip := some "10.0.0.0" },
          { ip := some "10.0.0.0", mask := some "0.0.0.0", area := some (.num 0) }] :
            List NetStmt).filter (fun s => maskKey s == k)) ∧
      (∀ p s q, l2 = p ++ s :: q → pyFalsyStr s.mask = true →
        ∀ t ∈ q, pyFalsyStr t.mask = true) ∧
      (∀ p s q, l2 = p ++ s :: q → maskKey s = some [0, 0, 0, 0] →
        ∀ t ∈ p, maskKey t = some [0, 0, 0, 0]) :=
  c5_sort_by_mask_spec _ (by decide)

/-! ## Claim C6: interface-to-area binding -/

set_option maxRecDepth 4096

theorem formatBin8_len_nat : ∀ m : Nat, m < 256 →
    (formatBin8 (Int.ofNat m)).data.length = 8 := by
  decide

theorem formatBin8_len {v : Int} (h0 : 0 ≤ v) (h255 : v ≤ 255) :
    (formatBin8 v).data.length = 8 := by
  have hv : v = Int.ofNat v.toNat := (Int.toNat_of_nonneg h0).symm
  rw [hv]
  exact formatBin8_len_nat v.toNat (by omega)

theorem validQuad_parse {s : String} (h : validQuad s = true) :
    ∀ t ∈ pySplitDot s, ∃ n, pyInt t = some n ∧ 0 ≤ n ∧ n ≤ 255 := by
  rw [validQuad] at h
  simp only [Bool.and_eq_true, List.all_eq_true] at h
  intro t ht
  have := h.2 t ht
  cases hpi : pyInt t with
  | none => rw [hpi] at this; exact absurd this (by simp)
  | some n =>
    rw [hpi] at this
    simp only [decide_eq_true_eq] at this
    exact ⟨n, rfl, this.1, this.2⟩

theorem validQuad_len {s : String} (h : validQuad s = true) :
    (pySplitDot s).length = 4 := by
  rw [validQuad] at h
  simp only [Bool.and_eq_true, beq_iff_eq] at h
  exact h.1

theorem length_eq_four {α : Type _} {l : List α} (h : l.length = 4) :
    ∃ a b c d, l = [a, b, c, d] := by
  match l, h with
  | [a, b, c, d], _ => exact ⟨a, b, c, d, rfl⟩

theorem mapM_int_ok {ts : List String} (h : ∀ t ∈ ts, (pyInt t).isSome) :
    (ts.mapM (fun octet =>
      match pyInt octet with
      | some n => Except.ok n
      | none => Except.error "ValueError: invalid literal for int with base 10") :
        Except String (List Int)) = .ok (ts.map (fun t => (pyInt t).getD 0)) := by
  induction ts with
  | nil => rfl
  | cons t ts ih =>
    have ht := h t (List.mem_cons_self _ _)
    cases hpi : pyInt t with
    | none => rw [hpi] at ht; exact absurd ht (by simp)
    | some n =>
      rw [List.mapM_cons, hpi]
      simp only [bind, Except.bind]
      rw [ih (fun t2 h2 => h t2 (List.mem_cons_of_mem _ h2))]
      simp [pure, Except.pure, List.map_cons, hpi]

theorem get_binary_str_ok {s : String}
    (h : ∀ t ∈ pySplitDot s, (pyInt t).isSome) :
    get_binary_str s = .ok (pureBinStr s) := by
  rw [get_binary_str, mapM_int_ok h]
  simp only [bind, Except.bind, pure, Except.pure, pureBinStr, List.map_map]
  rfl

theorem pureBinStr_len {s : String} (h : validQuad s = true) :
    (pureBinStr s).data.length = 32 := by
  obtain ⟨a, b, c, d, hsp⟩ := length_eq_four (validQuad_len h)
  have hp := validQuad_parse h
  rw [hsp] at hp
  obtain ⟨na, hna, hna0, hna255⟩ := hp a (by simp)
  obtain ⟨nb, hnb, hnb0, hnb255⟩ := hp b (by simp)
  obtain ⟨nc, hnc, hnc0, hnc255⟩ := hp c (by simp)
  obtain ⟨nd, hnd, hnd0, hnd255⟩ := hp d (by simp)
  rw [pureBinStr, hsp]
  simp only [List.map_cons, List.map_nil, hna, hnb, hnc, hnd, Option.getD_some]
  show (String.join [formatBin8 na, formatBin8 nb, formatBin8 nc, formatBin8 nd]).data.length = 32
  have ha := formatBin8_len hna0 hna255
  have hb := formatBin8_len hnb0 hnb255
  have hc := formatBin8_len hnc0 hnc255
  have hd := formatBin8_len hnd0 hnd255
  simp [String.join, String.data_append, List.length_append, ha, hb, hc, hd]

theorem mergeBits_ok : ∀ {l1 l2 : List Char}, l1.length ≤ l2.length →
    mergeBits l1 l2 =
      .ok (List.zipWith (fun c1 c2 => if c1 = '1' ∨ c2 = '1' then '1' else '0') l1 l2) := by
  intro l1
  induction l1 with
  | nil => intro l2 h; rfl
  | cons c1 r1 ih =>
    intro l2 h
    cases l2 with
    | nil => simp at h
    | cons c2 r2 =>
      simp only [List.length_cons, Nat.add_le_add_iff_right] at h
      rw [mergeBits, ih h, exbind_ok]
      rfl

theorem binary_merge_ok {a b : String}
    (ha : validQuad a = true) (hb : validQuad b = true) :
    binary_merge a b = .ok (pureMerge a b) := by
  have hpa : ∀ t ∈ pySplitDot a, (pyInt t).isSome := by
    intro t ht
    obtain ⟨n, hn, _, _⟩ := validQuad_parse ha t ht
    simp [hn]
  have hpb : ∀ t ∈ pySplitDot b, (pyInt t).isSome := by
    intro t ht
    obtain ⟨n, hn, _, _⟩ := validQuad_parse hb t ht
    simp [hn]
  rw [binary_merge, get_binary_str_ok hpa, exbind_ok, get_binary_str_ok hpb, exbind_ok,
    mergeBits_ok (by rw [pureBinStr_len ha, pureBinStr_len hb]), exbind_ok]
  rfl

theorem expure_bind {ε α β : Type _} (a : α) (f : α → Except ε β) :
    ((pure a : Except ε α) >>= f) = f a := rfl

theorem inner_foldM_eq (stmt : NetStmt) (intfs : List VrfIntf)
    (hi : ∀ i ∈ intfs, validQuad i.primaryAddress = true)
    (hmask : validQuad (stmt.mask.getD "") = true) :
    ∀ acc,
    intfs.foldlM
      (fun (acc2 : List String × List (AreaVal × List VrfIntf)) intf => do
        if acc2.1.contains (fullName intf) then pure acc2
        else do
          let mergedIntf ← binary_merge intf.primaryAddress (stmt.mask.getD "")
          if pureMerge (stmt.ip.getD "") (stmt.mask.getD "") = mergedIntf then
            pure (fullName intf :: acc2.1, addToArea acc2.2 (stmt.area.getD (.str "0")) intf)
          else pure acc2)
      acc = .ok (assignInner stmt intfs acc) := by
  induction intfs with
  | nil => intro acc; rfl
  | cons i is ih =>
    intro acc
    have hrest : ∀ j ∈ is, validQuad j.primaryAddress = true :=
      fun j hj => hi j (List.mem_cons_of_mem _ hj)
    rw [List.foldlM_cons, assignInner]
    by_cases hc : acc.1.contains (fullName i) = true
    · rw [if_pos hc, if_pos hc, expure_bind]
      exact ih hrest _
    · rw [if_neg hc, if_neg hc,
        binary_merge_ok (hi i (List.mem_cons_self _ _)) hmask, exbind_ok]
      by_cases hm : matchesB stmt i = true
      · have hmp : pureMerge (stmt.ip.getD "") (stmt.mask.getD "") =
            pureMerge i.primaryAddress (stmt.mask.getD "") := by
          rw [matchesB, beq_iff_eq] at hm
          exact hm
        rw [if_pos hmp, if_pos hm, expure_bind, areaOf]
        exact ih hrest _
      · have hmp : ¬ (pureMerge (stmt.ip.getD "") (stmt.mask.getD "") =
            pureMerge i.primaryAddress (stmt.mask.getD "")) := by
          rw [matchesB, beq_iff_eq] at hm
          exact hm
        rw [if_neg hmp, if_neg hm, expure_bind]
        exact ih hrest _

theorem outer_foldM_eq (intfs : List VrfIntf)
    (hi : ∀ i ∈ intfs, validQuad i.primaryAddress = true) :
    ∀ (sorted : List NetStmt),
    (∀ s ∈ sorted, validQuad (s.ip.getD "") = true ∧ validQuad (s.mask.getD "") = true) →
    ∀ acc,
    sorted.foldlM
      (fun (acc : List String × List (AreaVal × List VrfIntf)) stmt => do
        let stmtMask := stmt.mask.getD ""
        let areaId := stmt.area.getD (.str "0")
        let mergedStmt ← binary_merge (stmt.ip.getD "") (stmt.mask.getD "")
        intfs.foldlM
          (fun (acc2 : List String × List (AreaVal × List VrfIntf)) intf => do
            if acc2.1.contains (fullName intf) then pure acc2
            else do
              let mergedIntf ← binary_merge intf.primaryAddress stmtMask
              if mergedStmt = mergedIntf then
                pure (fullName intf :: acc2.1, addToArea acc2.2 areaId intf)
              else pure acc2)
          acc)
      acc = .ok (assignGo intfs sorted acc) := by
  intro sorted
  induction sorted with
  | nil => intro _ acc; rfl
  | cons stmt rest ih =>
    intro hs acc
    obtain ⟨hip, hmask⟩ := hs stmt (List.mem_cons_self _ _)
    rw [List.foldlM_cons, assignGo]
    rw [binary_merge_ok hip hmask, exbind_ok, inner_foldM_eq stmt intfs hi hmask acc,
      exbind_ok]
    exact ih (fun s h2 => hs s (List.mem_cons_of_mem _ h2)) _

theorem validMask_of_validQuad {s : NetStmt}
    (h : validQuad (s.mask.getD "") = true) : validMask s = true := by
  rw [validMask]
  rw [validQuad] at h
  simp only [Bool.and_eq_true, beq_iff_eq, List.all_eq_true] at h
  rw [Bool.or_eq_true]
  right
  simp only [Bool.and_eq_true, beq_iff_eq, List.all_eq_true]
  refine ⟨h.1, ?_⟩
  intro t ht
  have := h.2 t ht
  rw [validMaskOctet]
  cases hpi : pyInt t with
  | none =>
    rw [hpi] at this
    exact absurd this (by simp)
  | some n =>
    rw [hpi] at this
    simp only [decide_eq_true_eq] at this ⊢
    exact this.1

theorem get_interfaces_by_area_eq (stmts : List NetStmt) (intfs : List VrfIntf)
    (hs : ∀ s ∈ stmts, validQuad (s.ip.getD "") = true ∧ validQuad (s.mask.getD "") = true)
    (hi : ∀ i ∈ intfs, validQuad i.primaryAddress = true) :
    get_interfaces_by_area stmts intfs = .ok (assignAll (isortT stmts) intfs).2 := by
  rw [get_interfaces_by_area,
    sortStmts_eq (fun y hy => validMask_of_validQuad (hs y hy).2), exbind_ok,
    outer_foldM_eq intfs hi (isortT stmts)
      (fun s h2 => hs s (mem_isortT.mp h2)) (([] : List String), []), exbind_ok]
  rfl

theorem inArea_nil (a : AreaVal) (i : VrfIntf) : inArea [] a i = false := rfl

theorem inArea_cons (k : AreaVal) (l : List VrfIntf)
    (rest : List (AreaVal × List VrfIntf)) (a : AreaVal) (i : VrfIntf) :
    inArea ((k, l) :: rest) a i = true ↔
      (k = a ∧ i ∈ l) ∨ inArea rest a i = true := by
  rw [inArea, List.any_cons, inArea]
  simp only [Bool.or_eq_true, Bool.and_eq_true, pyEqA_iff, List.elem_iff]

theorem inArea_addToArea (m : List (AreaVal × List VrfIntf)) (a0 : AreaVal)
    (i0 : VrfIntf) (a : AreaVal) (i : VrfIntf) :
    inArea (addToArea m a0 i0) a i = true ↔
      inArea m a i = true ∨ (a = a0 ∧ i = i0) := by
  induction m with
  | nil =>
    rw [addToArea, inArea_cons]
    simp only [List.mem_singleton, inArea_nil, Bool.false_eq_true, or_false, false_or]
    constructor
    · rintro ⟨h1, h2⟩
      exact ⟨h1.symm, h2⟩
    · rintro ⟨h1, h2⟩
      exact ⟨h1.symm, h2⟩
  | cons kv rest ih =>
    obtain ⟨k, l⟩ := kv
    rw [addToArea]
    by_cases hk : pyEqA k a0 = true
    · rw [if_pos hk]
      rw [pyEqA_iff] at hk
      subst hk
      rw [inArea_cons, inArea_cons]
      simp only [List.mem_append, List.mem_singleton]
      constructor
      · rintro (⟨h1, h2 | h2⟩ | h2)
        · exact Or.inl (Or.inl ⟨h1, h2⟩)
        · exact Or.inr ⟨h1.symm, h2⟩
        · exact Or.inl (Or.inr h2)
      · rintro ((⟨h1, h2⟩ | h2) | ⟨h1, h2⟩)
        · exact Or.inl ⟨h1, Or.inl h2⟩
        · exact Or.inr h2
        · exact Or.inl ⟨h1.symm, Or.inr h2⟩
    · rw [if_neg hk]
      rw [inArea_cons, inArea_cons, ih]
      tauto

theorem countName_nil (nm : String) : countName [] nm = 0 := rfl

theorem countName_cons (k : AreaVal) (l : List VrfIntf)
    (rest : List (AreaVal × List VrfIntf)) (nm : String) :
    countName ((k, l) :: rest) nm =
      l.countP (fun intf => fullName intf == nm) + countName rest nm := by
  rw [countName, List.map_cons, List.sum_cons, countName]

theorem countName_addToArea (m : List (AreaVal × List VrfIntf)) (a0 : AreaVal)
    (i0 : VrfIntf) (nm : String) :
    countName (addToArea m a0 i0) nm =
      countName m nm + (if fullName i0 == nm then 1 else 0) := by
  induction m with
  | nil =>
    rw [addToArea, countName_cons, countName_nil]
    by_cases h : fullName i0 == nm <;> simp [List.countP_cons, h]
  | cons kv rest ih =>
    obtain ⟨k, l⟩ := kv
    rw [addToArea]
    by_cases hk : pyEqA k a0 = true
    · rw [if_pos hk, countName_cons, countName_cons, List.countP_append]
      by_cases h : fullName i0 == nm
      · simp [List.countP_cons, h]
        try omega
      · simp [List.countP_cons, h]
        try omega
    · rw [if_neg hk, countName_cons, countName_cons, ih]
      omega

theorem contains_iff {α : Type _} [BEq α] [LawfulBEq α] (l : List α) (x : α) :
    l.contains x = true ↔ x ∈ l :=
  List.elem_iff

theorem assignInner_spec (stmt : NetStmt) :
    ∀ (cands : List VrfIntf), (cands.map fullName).Nodup →
    ∀ (P : List String) (M : List (AreaVal × List VrfIntf)),
    (∀ nm, (assignInner stmt cands (P, M)).1.contains nm = true ↔
      (P.contains nm = true ∨ ∃ i ∈ cands, fullName i = nm ∧ matchesB stmt i = true)) ∧
    (∀ a i, inArea (assignInner stmt cands (P, M)).2 a i = true ↔
      (inArea M a i = true ∨
        (i ∈ cands ∧ P.contains (fullName i) = false ∧ matchesB stmt i = true ∧
          a = areaOf stmt))) ∧
    (∀ nm, countName (assignInner stmt cands (P, M)).2 nm =
      countName M nm +
        (if P.contains nm = false ∧ (∃ i ∈ cands, fullName i = nm ∧ matchesB stmt i = true)
         then 1 else 0)) := by
  intro cands
  induction cands with
  | nil =>
    intro _ P M
    refine ⟨?_, ?_, ?_⟩
    · intro nm
      simp [assignInner]
    · intro a i
      simp [assignInner]
    · intro nm
      simp [assignInner]
  | cons c cs ih =>
    intro hnodup P M
    rw [List.map_cons, List.nodup_cons] at hnodup
    obtain ⟨hni, hnd⟩ := hnodup
    have hcns : c ∉ cs := fun hmem => hni (List.mem_map_of_mem fullName hmem)
    rw [assignInner]
    by_cases hc : P.contains (fullName c) = true
    · rw [if_pos hc]
      obtain ⟨ih1, ih2, ih3⟩ := ih hnd P M
      refine ⟨?_, ?_, ?_⟩
      · intro nm
        rw [ih1 nm]
        constructor
        · rintro (h | ⟨i, hi, hn, hm⟩)
          · exact Or.inl h
          · exact Or.inr ⟨i, List.mem_cons_of_mem _ hi, hn, hm⟩
        · rintro (h | ⟨i, hi, hn, hm⟩)
          · exact Or.inl h
          · rcases List.mem_cons.mp hi with rfl | hi2
            · exact Or.inl (hn ▸ hc)
            · exact Or.inr ⟨i, hi2, hn, hm⟩
      · intro a i
        rw [ih2 a i]
        constructor
        · rintro (h | ⟨hi, hpf, hm, ha⟩)
          · exact Or.inl h
          · exact Or.inr ⟨List.mem_cons_of_mem _ hi, hpf, hm, ha⟩
        · rintro (h | ⟨hi, hpf, hm, ha⟩)
          · exact Or.inl h
          · rcases List.mem_cons.mp hi with rfl | hi2
            · rw [hc] at hpf
              exact absurd hpf (by simp)
            · exact Or.inr ⟨hi2, hpf, hm, ha⟩
      · intro nm
        rw [ih3 nm]
        by_cases hA : P.contains nm = false ∧
            ∃ i ∈ cs, fullName i = nm ∧ matchesB stmt i = true
        · obtain ⟨h1, i, hi, hn, hmi⟩ := hA
          rw [if_pos ⟨h1, i, hi, hn, hmi⟩,
            if_pos ⟨h1, i, List.mem_cons_of_mem _ hi, hn, hmi⟩]
        · rw [if_neg hA, if_neg ?_]
          rintro ⟨h1, i, hi, hn, hmi⟩
          rcases List.mem_cons.mp hi with rfl | hi2
          · rw [hn] at hc
            rw [hc] at h1
            simp at h1
          · exact hA ⟨h1, i, hi2, hn, hmi⟩
    · rw [if_neg hc]
      have hcF : P.contains (fullName c) = false := Bool.eq_false_iff.mpr hc
      by_cases hm : matchesB stmt c = true
      · rw [if_pos hm]
        obtain ⟨ih1, ih2, ih3⟩ := ih hnd (fullName c :: P) (addToArea M (areaOf stmt) c)
        refine ⟨?_, ?_, ?_⟩
        · intro nm
          rw [ih1 nm]
          simp only [contains_iff, List.mem_cons]
          constructor
          · rintro ((rfl | h) | ⟨i, hi, hn, hmi⟩)
            · exact Or.inr ⟨c, Or.inl rfl, rfl, hm⟩
            · exact Or.inl h
            · exact Or.inr ⟨i, Or.inr hi, hn, hmi⟩
          · rintro (h | ⟨i, hi, hn, hmi⟩)
            · exact Or.inl (Or.inr h)
            · rcases hi with rfl | hi2
              · exact Or.inl (Or.inl hn.symm)
              · exact Or.inr ⟨i, hi2, hn, hmi⟩
        · intro a i
          rw [ih2 a i, inArea_addToArea]
          constructor
          · rintro ((h | ⟨ha, rfl⟩) | ⟨hi, hpf, hmi, ha⟩)
            · exact Or.inl h
            · exact Or.inr ⟨List.mem_cons_self _ _, hcF, hm, ha⟩
            · refine Or.inr ⟨List.mem_cons_of_mem _ hi, ?_, hmi, ha⟩
              rw [Bool.eq_false_iff] at hpf ⊢
              exact fun hcon => hpf ((contains_iff _ _).mpr
                (List.mem_cons_of_mem _ ((contains_iff _ _).mp hcon)))
          · rintro (h | ⟨hi, hpf, hmi, ha⟩)
            · exact Or.inl (Or.inl h)
            · rcases List.mem_cons.mp hi with rfl | hi2
              · exact Or.inl (Or.inr ⟨ha, rfl⟩)
              · refine Or.inr ⟨hi2, ?_, hmi, ha⟩
                have hneq : fullName i ≠ fullName c :=
                  fun he => hni (he ▸ List.mem_map_of_mem fullName hi2)
                rw [Bool.eq_false_iff] at hpf ⊢
                intro hcon
                rw [contains_iff, List.mem_cons] at hcon
                rcases hcon with he | hmem
                · exact hneq he
                · exact hpf ((contains_iff _ _).mpr hmem)
        · intro nm
          rw [ih3 nm, countName_addToArea]
          by_cases hnm : fullName c = nm
          · subst hnm
            rw [if_pos (show (fullName c == fullName c) = true by simp)]
            rw [if_neg (show ¬((fullName c :: P).contains (fullName c) = false ∧
                ∃ i ∈ cs, fullName i = fullName c ∧ matchesB stmt i = true) from ?_)]
            rw [if_pos (show P.contains (fullName c) = false ∧
                ∃ i ∈ c :: cs, fullName i = fullName c ∧ matchesB stmt i = true from
                ⟨hcF, c, List.mem_cons_self _ _, rfl, hm⟩)]
            rintro ⟨hpn, -⟩
            rw [Bool.eq_false_iff] at hpn
            exact hpn ((contains_iff _ _).mpr (List.mem_cons_self _ _))
          · rw [if_neg (show ¬((fullName c == nm) = true) by
              simp only [beq_iff_eq]
              exact hnm)]
            have hiff2 : ((fullName c :: P).contains nm = false ∧
                ∃ i ∈ cs, fullName i = nm ∧ matchesB stmt i = true) ↔
                (P.contains nm = false ∧
                ∃ i ∈ c :: cs, fullName i = nm ∧ matchesB stmt i = true) := by
              constructor
              · rintro ⟨h1, i, hi, hn, hmi⟩
                refine ⟨?_, i, List.mem_cons_of_mem _ hi, hn, hmi⟩
                rw [Bool.eq_false_iff] at h1 ⊢
                exact fun hcon => h1 ((contains_iff _ _).mpr
                  (List.mem_cons_of_mem _ ((contains_iff _ _).mp hcon)))
              · rintro ⟨h1, i, hi, hn, hmi⟩
                rcases List.mem_cons.mp hi with rfl | hi2
                · exact absurd hn hnm
                · refine ⟨?_, i, hi2, hn, hmi⟩
                  rw [Bool.eq_false_iff] at h1 ⊢
                  intro hcon
                  rw [contains_iff, List.mem_cons] at hcon
                  rcases hcon with he | hmem
                  · exact hnm he.symm
                  · exact h1 ((contains_iff _ _).mpr hmem)
            by_cases hA : (fullName c :: P).contains nm = false ∧
                ∃ i ∈ cs, fullName i = nm ∧ matchesB stmt i = true
            · rw [if_pos hA, if_pos (hiff2.mp hA)]
            · rw [if_neg hA, if_neg (fun hcon => hA (hiff2.mpr hcon))]
      · rw [if_neg hm]
        obtain ⟨ih1, ih2, ih3⟩ := ih hnd P M
        refine ⟨?_, ?_, ?_⟩
        · intro nm
          rw [ih1 nm]
          constructor
          · rintro (h | ⟨i, hi, hn, hmi⟩)
            · exact Or.inl h
            · exact Or.inr ⟨i, List.mem_cons_of_mem _ hi, hn, hmi⟩
          · rintro (h | ⟨i, hi, hn, hmi⟩)
            · exact Or.inl h
            · rcases List.mem_cons.mp hi with rfl | hi2
              · exact absurd hmi hm
              · exact Or.inr ⟨i, hi2, hn, hmi⟩
        · intro a i
          rw [ih2 a i]
          constructor
          · rintro (h | ⟨hi, hpf, hmi, ha⟩)
            · exact Or.inl h
            · exact Or.inr ⟨List.mem_cons_of_mem _ hi, hpf, hmi, ha⟩
          · rintro (h | ⟨hi, hpf, hmi, ha⟩)
            · exact Or.inl h
            · rcases List.mem_cons.mp hi with rfl | hi2
              · exact absurd hmi hm
              · exact Or.inr ⟨hi2, hpf, hmi, ha⟩
        · intro nm
          rw [ih3 nm]
          by_cases hA : P.contains nm = false ∧
              ∃ i ∈ cs, fullName i = nm ∧ matchesB stmt i = true
          · obtain ⟨h1, i, hi, hn, hmi⟩ := hA
            rw [if_pos ⟨h1, i, hi, hn, hmi⟩,
              if_pos ⟨h1, i, List.mem_cons_of_mem _ hi, hn, hmi⟩]
          · rw [if_neg hA, if_neg ?_]
            rintro ⟨h1, i, hi, hn, hmi⟩
            rcases List.mem_cons.mp hi with rfl | hi2
            · exact absurd hmi hm
            · exact hA ⟨h1, i, hi2, hn, hmi⟩


theorem find?_app_some {α : Type _} (p : α → Bool) {l1 : List α} (l2 : List α)
    {x : α} (h : l1.find? p = some x) : (l1 ++ l2).find? p = some x := by
  induction l1 with
  | nil => simp [List.find?] at h
  | cons a l ih =>
    rw [List.cons_append]
    by_cases hp : p a = true
    · rw [List.find?_cons_of_pos _ hp] at h ⊢
      exact h
    · rw [List.find?_cons_of_neg _ hp] at h ⊢
      exact ih h

theorem find?_app_none {α : Type _} (p : α → Bool) {l1 : List α} (l2 : List α)
    (h : l1.find? p = none) : (l1 ++ l2).find? p = l2.find? p := by
  induction l1 with
  | nil => rw [List.nil_append]
  | cons a l ih =>
    rw [List.cons_append]
    by_cases hp : p a = true
    · rw [List.find?_cons_of_pos _ hp] at h
      exact absurd h (by simp)
    · rw [List.find?_cons_of_neg _ hp] at h ⊢
      exact ih h

theorem assignGo_spec (intfs : List VrfIntf) (hnd : (intfs.map fullName).Nodup) :
    ∀ (rest hs : List NetStmt) (P : List String)
      (M : List (AreaVal × List VrfIntf)),
    (∀ nm, P.contains nm = true ↔
      ∃ i ∈ intfs, fullName i = nm ∧ hs.any (fun s => matchesB s i) = true) →
    (∀ a i, inArea M a i = true ↔
      i ∈ intfs ∧ (hs.find? (fun s => matchesB s i)).map areaOf = some a) →
    (∀ nm, countName M nm =
      if P.contains nm = true ∧ (∃ i ∈ intfs, fullName i = nm) then 1 else 0) →
    (∀ a i, inArea (assignGo intfs rest (P, M)).2 a i = true ↔
      i ∈ intfs ∧
        ((hs ++ rest).find? (fun s => matchesB s i)).map areaOf = some a) ∧
    (∀ nm, countName (assignGo intfs rest (P, M)).2 nm ≤ 1) := by
  have hinj : ∀ x ∈ intfs, ∀ y ∈ intfs, fullName x = fullName y → x = y :=
    fun x hx y hy he => List.inj_on_of_nodup_map hnd hx hy he
  intro rest
  induction rest with
  | nil =>
    intro hs P M hP hM hC
    rw [assignGo]
    refine ⟨?_, ?_⟩
    · intro a i
      rw [List.append_nil]
      exact hM a i
    · intro nm
      rw [hC nm]
      by_cases h : P.contains nm = true ∧ ∃ i ∈ intfs, fullName i = nm
      · rw [if_pos h]
      · rw [if_neg h]
        exact Nat.zero_le 1
  | cons stmt rest2 ih =>
    intro hs P M hP hM hC
    rw [assignGo]
    obtain ⟨s1, s2, s3⟩ := assignInner_spec stmt intfs hnd P M
    have hPi : ∀ i ∈ intfs,
        (P.contains (fullName i) = true ↔ hs.any (fun s => matchesB s i) = true) := by
      intro i hi
      rw [hP (fullName i)]
      constructor
      · rintro ⟨j, hj, hn, hany⟩
        rwa [hinj j hj i hi hn] at hany
      · intro hany
        exact ⟨i, hi, rfl, hany⟩
    have hP2 : ∀ nm, (assignInner stmt intfs (P, M)).1.contains nm = true ↔
        ∃ i ∈ intfs, fullName i = nm ∧
          (hs ++ [stmt]).any (fun s => matchesB s i) = true := by
      intro nm
      rw [s1 nm]
      constructor
      · rintro (h | ⟨i, hi, hn, hmi⟩)
        · obtain ⟨i, hi, hn, hany⟩ := (hP nm).mp h
          refine ⟨i, hi, hn, ?_⟩
          rw [List.any_append, Bool.or_eq_true]
          exact Or.inl hany
        · refine ⟨i, hi, hn, ?_⟩
          rw [List.any_append, Bool.or_eq_true]
          right
          rw [List.any_cons, Bool.or_eq_true]
          exact Or.inl hmi
      · rintro ⟨i, hi, hn, hany⟩
        rw [List.any_append, Bool.or_eq_true] at hany
        rcases hany with h1 | h2
        · exact Or.inl ((hP nm).mpr ⟨i, hi, hn, h1⟩)
        · rw [List.any_cons, List.any_nil, Bool.or_false] at h2
          exact Or.inr ⟨i, hi, hn, h2⟩
    have hM2 : ∀ a i, inArea (assignInner stmt intfs (P, M)).2 a i = true ↔
        i ∈ intfs ∧
          ((hs ++ [stmt]).find? (fun s => matchesB s i)).map areaOf = some a := by
      intro a i
      rw [s2 a i]
      by_cases hin : i ∈ intfs
      · by_cases hany : hs.any (fun s => matchesB s i) = true
        · have hPc : P.contains (fullName i) = true := (hPi i hin).mpr hany
          have hfind : ∃ s0, hs.find? (fun s => matchesB s i) = some s0 := by
            cases hf : hs.find? (fun s => matchesB s i) with
            | some s0 => exact ⟨s0, rfl⟩
            | none =>
              rw [List.find?_eq_none] at hf
              rw [List.any_eq_true] at hany
              obtain ⟨x, hx, hpx⟩ := hany
              exact absurd hpx (hf x hx)
          obtain ⟨s0, hf⟩ := hfind
          rw [find?_app_some _ _ hf]
          constructor
          · rintro (h | ⟨_, hpf, _, _⟩)
            · obtain ⟨_, h2⟩ := (hM a i).mp h
              rw [hf] at h2
              exact ⟨hin, h2⟩
            · rw [hPc] at hpf
              exact absurd hpf (by simp)
          · rintro ⟨_, h2⟩
            refine Or.inl ((hM a i).mpr ⟨hin, ?_⟩)
            rw [hf]
            exact h2
        · have hPc : P.contains (fullName i) = false := by
            rw [Bool.eq_false_iff]
            intro hcon
            exact hany ((hPi i hin).mp hcon)
          have hf : hs.find? (fun s => matchesB s i) = none := by
            rw [List.find?_eq_none]
            intro x hx hpx
            exact hany (List.any_eq_true.mpr ⟨x, hx, hpx⟩)
          have hMfalse : ¬(inArea M a i = true) := by
            intro hcon
            obtain ⟨_, h2⟩ := (hM a i).mp hcon
            rw [hf] at h2
            simp at h2
          rw [find?_app_none _ _ hf]
          by_cases hms : matchesB stmt i = true
          · rw [@List.find?_cons_of_pos _ (fun s => matchesB s i) stmt [] hms]
            constructor
            · rintro (h | ⟨_, _, _, ha⟩)
              · exact absurd h hMfalse
              · refine ⟨hin, ?_⟩
                rw [ha]
                rfl
            · rintro ⟨_, h2⟩
              right
              refine ⟨hin, hPc, hms, ?_⟩
              have h3 : some (areaOf stmt) = some a := h2
              injection h3 with h4
              exact h4.symm
          · rw [@List.find?_cons_of_neg _ (fun s => matchesB s i) stmt [] hms,
              List.find?_nil]
            constructor
            · rintro (h | ⟨_, _, hm2, _⟩)
              · exact absurd h hMfalse
              · exact absurd hm2 hms
            · rintro ⟨_, h2⟩
              simp at h2
      · constructor
        · rintro (h | ⟨hi, -⟩)
          · exact absurd ((hM a i).mp h).1 hin
          · exact absurd hi hin
        · rintro ⟨hi, -⟩
          exact absurd hi hin
    have hC2 : ∀ nm, countName (assignInner stmt intfs (P, M)).2 nm =
        if (assignInner stmt intfs (P, M)).1.contains nm = true ∧
            (∃ i ∈ intfs, fullName i = nm) then 1 else 0 := by
      intro nm
      rw [s3 nm, hC nm]
      by_cases hp : P.contains nm = true
      · rw [if_neg (show ¬(P.contains nm = false ∧
            ∃ i ∈ intfs, fullName i = nm ∧ matchesB stmt i = true) from
            fun hcon => absurd hp (by rw [hcon.1]; simp))]
        have hp2 : (assignInner stmt intfs (P, M)).1.contains nm = true :=
          (s1 nm).mpr (Or.inl hp)
        by_cases hex : ∃ i ∈ intfs, fullName i = nm
        · rw [if_pos ⟨hp, hex⟩, if_pos ⟨hp2, hex⟩]
        · rw [if_neg (fun hcon => hex hcon.2), if_neg (fun hcon => hex hcon.2)]
      · have hpF : P.contains nm = false := Bool.eq_false_iff.mpr hp
        rw [if_neg (show ¬(P.contains nm = true ∧
            ∃ i ∈ intfs, fullName i = nm) from fun hcon => hp hcon.1)]
        by_cases hex : ∃ i ∈ intfs, fullName i = nm ∧ matchesB stmt i = true
        · rw [if_pos ⟨hpF, hex⟩]
          have hp2 : (assignInner stmt intfs (P, M)).1.contains nm = true :=
            (s1 nm).mpr (Or.inr hex)
          obtain ⟨i, hi, hn, -⟩ := hex
          rw [if_pos ⟨hp2, i, hi, hn⟩]
        · rw [if_neg (fun hcon => hex hcon.2)]
          have hp2 : ¬((assignInner stmt intfs (P, M)).1.contains nm = true) := by
            intro hcon
            rcases (s1 nm).mp hcon with h | h
            · exact hp h
            · exact hex h
          rw [if_neg (fun hcon => hp2 hcon.1)]
      
    have hrec := ih (hs ++ [stmt]) (assignInner stmt intfs (P, M)).1
      (assignInner stmt intfs (P, M)).2 hP2 hM2 hC2
    have hpair : ((assignInner stmt intfs (P, M)).1,
        (assignInner stmt intfs (P, M)).2) = assignInner stmt intfs (P, M) := rfl
    rw [hpair] at hrec
    obtain ⟨hA, hB⟩ := hrec
    refine ⟨?_, hB⟩
    intro a i
    rw [List.append_cons]
    exact hA a i


/-- **C6.** `get_interfaces_by_area` assigns each candidate interface to at
most one area: provided every statement address/mask and every interface
primary address is a well-formed dotted quad, and the candidate interfaces
carry distinct full names (`type + name`, the key used for the `processed`
list), the function succeeds and returns an area map in which (a) every full
interface name is bound at most once across all areas, and (b) an interface
sits in an area exactly when that area belongs to the first statement, in
`sort_by_mask` sorted order, whose `binary_merge` of ip and wildcard mask
equals the `binary_merge` of the interface address with the same mask — so
the first matching statement claims the interface and no later statement
rebinds it. -/
theorem c6_first_match_binding (stmts : List NetStmt) (intfs : List VrfIntf)
    (hstv : ∀ s ∈ stmts,
      validQuad (s.ip.getD "") = true ∧ validQuad (s.mask.getD "") = true)
    (hiv : ∀ i ∈ intfs, validQuad i.primaryAddress = true)
    (hnd : (intfs.map fullName).Nodup) :
    ∃ res, get_interfaces_by_area stmts intfs = .ok res ∧
      (∀ nm, countName res nm ≤ 1) ∧
      (∀ a i, inArea res a i = true ↔
        i ∈ intfs ∧ firstMatch (isortT stmts) i = some a) := by
  have h0P : ∀ nm, (([] : List String)).contains nm = true ↔
      ∃ i ∈ intfs, fullName i = nm ∧
        (([] : List NetStmt).any (fun s => matchesB s i)) = true := by
    intro nm
    simp
  have h0M : ∀ a i, inArea ([] : List (AreaVal × List VrfIntf)) a i = true ↔
      i ∈ intfs ∧
        ((([] : List NetStmt).find? (fun s => matchesB s i)).map areaOf
          = some a) := by
    intro a i
    simp [inArea, List.find?_nil]
  have h0C : ∀ nm, countName ([] : List (AreaVal × List VrfIntf)) nm =
      if (([] : List String)).contains nm = true ∧
          (∃ i ∈ intfs, fullName i = nm) then 1 else 0 := by
    intro nm
    simp [countName]
  obtain ⟨hA, hB⟩ := assignGo_spec intfs hnd (isortT stmts) [] [] [] h0P h0M h0C
  refine ⟨(assignAll (isortT stmts) intfs).2,
    get_interfaces_by_area_eq stmts intfs hstv hiv, ?_, ?_⟩
  · intro nm
    exact hB nm
  · intro a i
    rw [firstMatch]
    exact hA a i

theorem c6_witness :
    (∀ s ∈ [NetStmt.mk (some "10.0.0.0") (some "0.255.255.255")
        (some (AreaVal.num 1))],
      validQuad (s.ip.getD "") = true ∧ validQuad (s.mask.getD "") = true) ∧
    (∀ i ∈ [VrfIntf.mk "GigabitEthernet" "1" "10.1.2.3"],
      validQuad i.primaryAddress = true) ∧
    (([VrfIntf.mk "GigabitEthernet" "1" "10.1.2.3"]).map fullName).Nodup ∧
    ∃ res, get_interfaces_by_area
        [NetStmt.mk (some "10.0.0.0") (some "0.255.255.255")
          (some (AreaVal.num 1))]
        [VrfIntf.mk "GigabitEthernet" "1" "10.1.2.3"] = .ok res ∧
      (∀ nm, countName res nm ≤ 1) ∧
      (∀ a i, inArea res a i = true ↔
        i ∈ [VrfIntf.mk "GigabitEthernet" "1" "10.1.2.3"] ∧
        firstMatch (isortT [NetStmt.mk (some "10.0.0.0") (some "0.255.255.255")
          (some (AreaVal.num 1))]) i = some a) :=
  ⟨by decide, by decide, by decide,
    c6_first_match_binding
      [NetStmt.mk (some "10.0.0.0") (some "0.255.255.255")
        (some (AreaVal.num 1))]
      [VrfIntf.mk "GigabitEthernet" "1" "10.1.2.3"]
      (by decide) (by decide) (by decide)⟩

end NsoOc
